import Mathlib

/-!
# goriak: read-path conflict resolution and JSON index mapping

A shallow embedding of `query_get_value.go` (the `commandGet` read path) and of
`json.go` (`Command.SetJSON`), followed by theorems about them.

Conventions of the embedding:

* byte slices are lists of naturals, Go `error` values are their messages;
* a Go function that can raise a run-time fault returns `Exec`, whose `fault`
  constructor stands for the Go runtime error;
* side effects (strategy invocations, transport calls) are recorded, in program
  order, in a list of `Event`s returned next to the result;
* state reachable through pointers (`*commandGet`, the output slot, the byte
  slot) is passed in and returned explicitly;
* candidates are `[]*riak.Object`; the pointers are taken to be non-nil, as the
  riak client allocates every element it returns.
-/

set_option autoImplicit false

namespace Goriak

/-! ## Data model -/

/-- Byte slices (`[]byte`). -/
abbrev Bytes := List Nat

/-- Go `error` values, identified with their message. -/
abbrev GoError := String

/-- Result of running Go code that may raise a run-time fault. -/
inductive Exec (α : Type) where
  | ret (a : α)
  | fault (reason : String)
  deriving Repr, DecidableEq

/-- The fields of `riak.Object` that the two source files read or write. -/
structure Object where
  Value : Bytes := []
  LastModified : Nat := 0
  VClock : Bytes := []
  Indexes : List (String × List String) := []
  deriving Repr, DecidableEq, Inhabited

/-- Go type `ConflictObject`, as built at `query_get_value.go:53-57`. -/
structure ConflictObject where
  Value : Bytes := []
  LastModified : Nat := 0
  VClock : Bytes := []
  deriving Repr, DecidableEq, Inhabited

/-- Go type `ResolvedConflict`; the code reads its `Value` and `VClock`. -/
structure ResolvedConflict where
  Value : Bytes := []
  VClock : Bytes := []
  deriving Repr, DecidableEq, Inhabited

/-- A resolution strategy: `func([]ConflictObject) ResolvedConflict`. -/
abbrev Resolver := List ConflictObject → ResolvedConflict

/-- Where the function held in `conflictResolverFunc` came from: the
`ConflictResolver` setter (line 30) or the output value's own method (line 44).
This is a ghost label; it does not influence the computation. -/
inductive ResolverSource where
  | explicit
  | selfResolving
  deriving Repr, DecidableEq

/-- A strategy function together with its provenance label. -/
structure TaggedResolver where
  source : ResolverSource
  fn : Resolver

/-- The kinds of `reflect.Kind` (sized integer and float kinds are merged). -/
inductive Kind where
  | Bool | Int | Uint | Float | Complex | Array | Chan | Func | Interface
  | Map | Ptr | Slice | String | Struct
  deriving Repr, DecidableEq

/-- One field of a record as `reflect` exposes it: its declared `Name`, the
result of `Tag.Get("goriakindex")` (empty when the tag is absent) and its
value. -/
structure Field (V : Type) where
  Name : String
  goriakindex : String
  Value : V

/-- Go values as far as `reflect` distinguishes them in `SetJSON`. A slice
carries the kind of its element type, which is known even when it is empty. -/
inductive GoValue where
  | bool (b : Bool)
  | int (n : Int)
  | uint (n : Nat)
  | float (bits : Nat)
  | complex (bits : Nat)
  | str (s : String)
  | slice (elemKind : Kind) (elems : List GoValue)
  | array (elemKind : Kind) (elems : List GoValue)
  | map (entries : List (GoValue × GoValue))
  | struct (fields : List (Field GoValue))
  | ptr (target : Option GoValue)
  | iface (dyn : Option GoValue)
  | chan
  | func

/-- The dynamic value stored in `commandGet.output`: a pointer to the caller's
slot, whose method set may or may not implement the `ConflictResolver`
interface. -/
structure OutputValue where
  slot : GoValue
  ConflictResolver : Option Resolver

/-- Tags of built riak commands (`commandType`); the constants are declared
outside the two source files. -/
inductive CommandType where
  | riakStoreValueCommand
  | riakFetchValueCommandJSON
  | other (tag : Nat)
  deriving Repr, DecidableEq

/-- The state of a `riak.StoreValueCommandBuilder` after the `With...` calls of
`json.go:75-82`. -/
structure StoreValueCommandBuilder where
  bucket : String
  bucketType : String
  content : Object
  key : Option String := none
  deriving Repr, DecidableEq

/-- A built riak command (`riak.Command`); a built store command keeps the
data of its builder. -/
inductive RiakCommand where
  | storeValue (b : StoreValueCommandBuilder)
  | fetchValue (bucket bucketType key : String)
  deriving Repr, DecidableEq

/-- Go type `Command`, with the fields the two files use. `indexes` is the
`map[string][]string` filled by `AddToIndex`, listed in the order in which
`range` enumerates it. -/
structure Command where
  bucket : String := ""
  bucketType : String := ""
  key : String := ""
  indexes : List (String × List String) := []
  err : Option GoError := none
  riakCommand : Option RiakCommand := none
  commandType : CommandType := CommandType.other 0
  output : Option OutputValue := none

/-- Go type `Result`. -/
structure Result where
  NotFound : Bool := false
  Key : String := ""
  VClock : Bytes := []
  deriving Repr, DecidableEq

/-- The request that `c.builder.Build()` produces for a fetch. -/
structure FetchRequest where
  bucket : String
  bucketType : String
  key : String
  deriving Repr, DecidableEq

/-- Go type `riak.FetchValueResponse`, with the fields read by `Run`. -/
structure FetchValueResponse where
  IsNotFound : Bool
  Values : List Object
  deriving Repr, DecidableEq

/-- An executed `riak.FetchValueCommand`: the result of `Success()` and the
response. -/
structure FetchValueCommand where
  Success : Bool
  Response : FetchValueResponse
  deriving Repr, DecidableEq

/-- The arguments of the write-back chain
`Bucket(bucket, bucketType).SetRaw(rawValue).Key(key).VClock(vclock).Run(session)`
of `query_get_value.go:67-71`. -/
structure WriteBack where
  bucket : String
  bucketType : String
  rawValue : Bytes
  key : String
  vclock : Bytes
  deriving Repr, DecidableEq

/-- The transport behind a `*Session`: what executing a fetch command yields
and what the store issued by a write-back yields (`none` is success). -/
structure Session where
  execute : FetchRequest → Except GoError FetchValueCommand
  store : WriteBack → Option GoError

/-- The library collaborators. `jsonMarshal` is `json.Marshal`;
`jsonUnmarshal data slot` gives the contents of the output slot after
`json.Unmarshal(data, output)` and the error it returns; `jsonUnmarshalNil` is
the error of `json.Unmarshal(data, nil)`; `buildStoreError` is the validation
done by `StoreValueCommandBuilder.Build()` (`none` when the build succeeds). -/
structure Libs where
  jsonMarshal : Option GoValue → Except GoError Bytes
  jsonUnmarshal : Bytes → GoValue → GoValue × Option GoError
  jsonUnmarshalNil : Bytes → GoError
  buildStoreError : StoreValueCommandBuilder → Option GoError

/-- Observable effects, in program order. -/
inductive Event where
  | build
  | fetch (req : FetchRequest)
  | resolverCall (source : ResolverSource) (objs : List ConflictObject)
  | writeBack (req : WriteBack) (outcome : Option GoError)
  deriving Repr, DecidableEq

/-- Go type `commandGet`. `Command` is the embedded `*Command`; `builder` is
the outcome of `builder.Build()`; `outputBytes` is the byte slot behind the
pointer (`none` for a nil pointer). -/
structure commandGet where
  Command : Command := {}
  builder : Except GoError FetchRequest
  key : String := ""
  output : Option OutputValue := none
  outputBytes : Option Bytes := none
  isRawOutput : Bool := false
  vclock : Bytes := []
  conflictResolverFunc : Option TaggedResolver := none

/-- The three results of `fetchValueWithResolver`. -/
structure FetchReturn where
  value : Bytes
  vclock : Bytes
  err : Option GoError
  deriving Repr, DecidableEq

/-- The two results of `Run`. -/
structure RunReturn where
  result : Option Result
  err : Option GoError
  deriving Repr, DecidableEq

/-! ## `query_get_value.go` -/

/-- Message of the error of line 46. -/
def errNoResolver : GoError := "goriak: Had conflict, but no conflict resolver"

/-- Message of the error of line 63. -/
def errInvalidResolver : GoError := "goriak: Invalid value from conflict resolver"

/-- Setter `commandGet.ConflictResolver` (lines 29-32); `fn` may be nil. -/
def commandGet.ConflictResolver (c : commandGet) (fn : Option Resolver) : commandGet :=
  { c with conflictResolverFunc := fn.map (fun f => ⟨ResolverSource.explicit, f⟩) }

/-- Lines 50-58: `objs := make([]ConflictObject, len(values))` followed by
the loop that assigns `objs[i]` for each `i, v := range values`. -/
def buildConflictObjects (values : List Object) : List ConflictObject :=
  values.enum.foldl
    (fun objs iv =>
      objs.set iv.1 { Value := iv.2.Value, LastModified := iv.2.LastModified, VClock := iv.2.VClock })
    (List.replicate values.length default)

/-- Lines 40-48: the strategy in force for a conflict, and the command after
the assignment of line 44; `none` when the function returns at line 46. -/
def selectResolver (c : commandGet) : Option (commandGet × TaggedResolver) :=
  match c.conflictResolverFunc with
  | some f => some (c, f)
  | none =>
    match c.output.bind (fun o => o.ConflictResolver) with
    | some r =>
      let f : TaggedResolver := ⟨ResolverSource.selfResolving, r⟩
      some ({ c with conflictResolverFunc := some f }, f)
    | none => none

/-- Method `commandGet.fetchValueWithResolver` (lines 34-77). Returns the
command after the call, the effects and the returned triple. -/
def commandGet.fetchValueWithResolver (c : commandGet) (session : Session)
    (values : List Object) : commandGet × List Event × Exec FetchReturn :=
  if values.length > 1 then
    match selectResolver c with
    | none => (c, [], Exec.ret ⟨[], [], some errNoResolver⟩)
    | some (c1, f) =>
      let objs := buildConflictObjects values
      let useObj := f.fn objs
      let called := [Event.resolverCall f.source objs]
      if useObj.VClock.length = 0 then
        (c1, called, Exec.ret ⟨[], [], some errInvalidResolver⟩)
      else
        let wb : WriteBack :=
          { bucket := c1.Command.bucket, bucketType := c1.Command.bucketType,
            rawValue := useObj.Value, key := c1.key, vclock := useObj.VClock }
        (c1, called ++ [Event.writeBack wb (session.store wb)],
          Exec.ret ⟨useObj.Value, useObj.VClock, none⟩)
  else
    match values with
    | [] => (c, [], Exec.fault "index out of range [0] with length 0")
    | v :: _ => (c, [], Exec.ret ⟨v.Value, v.VClock, none⟩)

/-- Method `commandGet.resultFetchValueCommandJSON` (lines 79-106). -/
def commandGet.resultFetchValueCommandJSON (c : commandGet) (libs : Libs) (session : Session)
    (cmd : FetchValueCommand) : commandGet × List Event × Exec RunReturn :=
  if !cmd.Success then
    (c, [], Exec.ret ⟨none, some "Not successful"⟩)
  else if cmd.Response.IsNotFound then
    (c, [], Exec.ret ⟨some { NotFound := true }, some "Not found"⟩)
  else
    match c.fetchValueWithResolver session cmd.Response.Values with
    | (c1, evs, Exec.fault r) => (c1, evs, Exec.fault r)
    | (c1, evs, Exec.ret ⟨value, vclock, err⟩) =>
      match err with
      | some e => (c1, evs, Exec.ret ⟨none, some e⟩)
      | none =>
        match c1.output with
        | none => (c1, evs, Exec.ret ⟨none, some (libs.jsonUnmarshalNil value)⟩)
        | some o =>
          match libs.jsonUnmarshal value o.slot with
          | (slot, some e) =>
            ({ c1 with output := some { o with slot := slot } }, evs, Exec.ret ⟨none, some e⟩)
          | (slot, none) =>
            ({ c1 with output := some { o with slot := slot } }, evs,
              Exec.ret ⟨some { Key := c1.key, VClock := vclock }, none⟩)

/-- Method `commandGet.resultFetchValueCommandRaw` (lines 108-131). -/
def commandGet.resultFetchValueCommandRaw (c : commandGet) (session : Session)
    (cmd : FetchValueCommand) : commandGet × List Event × Exec RunReturn :=
  if !cmd.Success then
    (c, [], Exec.ret ⟨none, some "Not successful"⟩)
  else if cmd.Response.IsNotFound then
    (c, [], Exec.ret ⟨some { NotFound := true }, some "Not found"⟩)
  else
    match c.fetchValueWithResolver session cmd.Response.Values with
    | (c1, evs, Exec.fault r) => (c1, evs, Exec.fault r)
    | (c1, evs, Exec.ret ⟨value, vclock, err⟩) =>
      match err with
      | some e => (c1, evs, Exec.ret ⟨none, some e⟩)
      | none =>
        match c1.outputBytes with
        | none => (c1, evs, Exec.fault "nil pointer dereference")
        | some _ =>
          ({ c1 with outputBytes := some value }, evs,
            Exec.ret ⟨some { Key := c1.key, VClock := vclock }, none⟩)

/-- Lines 144-171 of `commandGet.Run`: the handling of an executed fetch
command. -/
def commandGet.runFetched (c : commandGet) (libs : Libs) (session : Session)
    (fetchCmd : FetchValueCommand) : commandGet × List Event × Exec RunReturn :=
  if !fetchCmd.Success then
    (c, [], Exec.ret ⟨none, some "Not successful"⟩)
  else if fetchCmd.Response.IsNotFound then
    (c, [], Exec.ret ⟨some { NotFound := true }, some "Not found"⟩)
  else
    match c.fetchValueWithResolver session fetchCmd.Response.Values with
    | (c1, evs, Exec.fault r) => (c1, evs, Exec.fault r)
    | (c1, evs, Exec.ret ⟨value, vclock, err⟩) =>
      match err with
      | some e => (c1, evs, Exec.ret ⟨none, some e⟩)
      | none =>
        if c1.isRawOutput then
          match c1.outputBytes with
          | none => (c1, evs, Exec.fault "nil pointer dereference")
          | some _ =>
            ({ c1 with outputBytes := some value }, evs,
              Exec.ret ⟨some { Key := c1.key, VClock := vclock }, none⟩)
        else
          match c1.output with
          | none => (c1, evs, Exec.ret ⟨none, some (libs.jsonUnmarshalNil value)⟩)
          | some o =>
            match libs.jsonUnmarshal value o.slot with
            | (slot, some e) =>
              ({ c1 with output := some { o with slot := slot } }, evs, Exec.ret ⟨none, some e⟩)
            | (slot, none) =>
              ({ c1 with output := some { o with slot := slot } }, evs,
                Exec.ret ⟨some { Key := c1.key, VClock := vclock }, none⟩)

/-- Method `commandGet.Run` (lines 133-172). -/
def commandGet.Run (c : commandGet) (libs : Libs) (session : Session) :
    commandGet × List Event × Exec RunReturn :=
  match c.builder with
  | Except.error e => (c, [Event.build], Exec.ret ⟨none, some e⟩)
  | Except.ok cmd =>
    match session.execute cmd with
    | Except.error e => (c, [Event.build, Event.fetch cmd], Exec.ret ⟨none, some e⟩)
    | Except.ok fetchCmd =>
      match c.runFetched libs session fetchCmd with
      | (c1, evs, r) => (c1, Event.build :: Event.fetch cmd :: evs, r)

/-! ## `json.go` -/

/-- The update `Object.AddToIndex` of the riak client performs on the index
map: the value is appended to the list under `indexName`, and the entry is
created when the name is new. -/
def insertIndex : List (String × List String) → String → String → List (String × List String)
  | [], indexName, indexValue => [(indexName, [indexValue])]
  | (k, vs) :: rest, indexName, indexValue =>
    if k = indexName then (k, vs ++ [indexValue]) :: rest
    else (k, vs) :: insertIndex rest indexName indexValue

/-- Method `riak.Object.AddToIndex`. -/
def Object.AddToIndex (o : Object) (indexName indexValue : String) : Object :=
  { o with Indexes := insertIndex o.Indexes indexName indexValue }

/-- The result of `reflect.Value.Kind()` (equally `Type().Kind()`). -/
def GoValue.Kind : GoValue → Kind
  | GoValue.bool _ => Kind.Bool
  | GoValue.int _ => Kind.Int
  | GoValue.uint _ => Kind.Uint
  | GoValue.float _ => Kind.Float
  | GoValue.complex _ => Kind.Complex
  | GoValue.str _ => Kind.String
  | GoValue.slice _ _ => Kind.Slice
  | GoValue.array _ _ => Kind.Array
  | GoValue.map _ => Kind.Map
  | GoValue.struct _ => Kind.Struct
  | GoValue.ptr _ => Kind.Ptr
  | GoValue.iface _ => Kind.Interface
  | GoValue.chan => Kind.Chan
  | GoValue.func => Kind.Func

/-- The result of `reflect.Value.String()`: the content of a string value; for
any other kind `reflect` returns a description of the value instead of
faulting. -/
def GoValue.String : GoValue → String
  | GoValue.str s => s
  | _ => "<Value>"

/-- The result of `Type().Elem().Kind()` on a slice or array value. -/
def GoValue.ElemKind : GoValue → Option Goriak.Kind
  | GoValue.slice k _ => some k
  | GoValue.array k _ => some k
  | _ => none

/-- The elements `Index(0)`, ..., `Index(Len()-1)` of a slice or array value. -/
def GoValue.Elems : GoValue → List GoValue
  | GoValue.slice _ es => es
  | GoValue.array _ es => es
  | _ => []

/-- The fields `Field(0)`, ..., `Field(NumField()-1)` of a record value. -/
def GoValue.Fields : GoValue → List (Field GoValue)
  | GoValue.struct fs => fs
  | _ => []

/-- Lines 25-30 of `SetJSON`: every explicit assignment of `c.indexes` is added
to the object. -/
def addExplicitIndexes (indexes : List (String × List String)) (object : Object) : Object :=
  indexes.foldl
    (fun o entry => entry.2.foldl (fun o1 val => o1.AddToIndex entry.1 val) o)
    object

/-- Lines 39-71 of `SetJSON`: the loop over the fields of a record, from the
field at the head of the list on. The error is the one of line 69. -/
def setStructIndexes (object : Object) : List (Field GoValue) → Except GoError Object
  | [] => Except.ok object
  | f :: rest =>
    let indexName := f.goriakindex
    if indexName.length = 0 then
      setStructIndexes object rest
    else if f.Value.Kind = Kind.String then
      setStructIndexes (object.AddToIndex indexName f.Value.String) rest
    else if f.Value.Kind = Kind.Slice ∧ f.Value.ElemKind = some Kind.String then
      setStructIndexes
        (f.Value.Elems.foldl (fun o e => o.AddToIndex indexName e.String) object) rest
    else
      Except.error ("Did not know how to set index: " ++ f.Name)

/-- Method `Command.SetJSON` (`json.go:13-95`). The receiver is a copy, so
the result is the returned command. A nil `value` makes `reflect.TypeOf`
return nil, and the call `refType.Kind()` of line 36 then faults. -/
def Command.SetJSON (c : Command) (libs : Libs) (value : Option GoValue) : Exec Command :=
  match libs.jsonMarshal value with
  | Except.error e => Exec.ret { c with err := some e }
  | Except.ok data =>
    let object : Object := { Value := data }
    let object := addExplicitIndexes c.indexes object
    match value with
    | none => Exec.fault "invalid memory address or nil pointer dereference"
    | some refValue =>
      let derived :=
        if refValue.Kind = Kind.Struct then setStructIndexes object refValue.Fields
        else Except.ok object
      match derived with
      | Except.error e => Exec.ret { c with err := some e }
      | Except.ok object =>
        let builder : StoreValueCommandBuilder :=
          { bucket := c.bucket, bucketType := c.bucketType, content := object }
        let builder := if c.key ≠ "" then { builder with key := some c.key } else builder
        match libs.buildStoreError builder with
        | some e => Exec.ret { c with err := some e }
        | none =>
          Exec.ret
            { c with
              riakCommand := some (RiakCommand.storeValue builder),
              commandType := CommandType.riakStoreValueCommand }

/-! ## Observers and sample data used in the statements -/

/-- Whether an effect is an invocation of a resolution strategy. -/
def Event.isResolverCall : Event → Bool
  | Event.resolverCall _ _ => true
  | _ => false

/-- Whether an effect is a write-back. -/
def Event.isWriteBack : Event → Bool
  | Event.writeBack _ _ => true
  | _ => false

/-- The `ConflictObject` that lines 53-57 build from a candidate. -/
def Object.toConflictObject (v : Object) : ConflictObject :=
  { Value := v.Value, LastModified := v.LastModified, VClock := v.VClock }

/-- A strategy that picks the last sibling it is given. -/
def pickLast : Resolver := fun objs =>
  match objs.getLast? with
  | some o => { Value := o.Value, VClock := o.VClock }
  | none => {}

/-- A strategy that picks the first sibling it is given. -/
def pickFirst : Resolver := fun objs =>
  match objs.head? with
  | some o => { Value := o.Value, VClock := o.VClock }
  | none => {}

/-- A strategy that returns the bytes of the first sibling without a causal
token. -/
def dropToken : Resolver := fun objs =>
  match objs.head? with
  | some o => { Value := o.Value, VClock := [] }
  | none => {}

/-- Siblings `("A", "t1")` and `("B", "t2")`, as ASCII bytes. -/
def twoSiblings : List Object :=
  [ { Value := [65], LastModified := 1, VClock := [116, 49] },
    { Value := [66], LastModified := 2, VClock := [116, 50] } ]

/-- A transport whose fetch finds nothing and whose store succeeds. -/
def okSession : Session :=
  { execute := fun _ => Except.ok ⟨true, ⟨true, []⟩⟩, store := fun _ => none }

/-- A transport whose store fails. -/
def failingStoreSession : Session :=
  { execute := fun _ => Except.ok ⟨true, ⟨true, []⟩⟩, store := fun _ => some "store failed" }

/-- A structured read of key `u1` in bucket `users` with no strategy and an
output value without a resolver of its own. -/
def plainGet : commandGet :=
  { Command := { bucket := "users", bucketType := "default" },
    builder := Except.ok ⟨"users", "default", "u1"⟩,
    key := "u1",
    output := some ⟨GoValue.str "", none⟩ }

/-- A structured read of key `u1` whose output value resolves conflicts itself
by picking the first sibling. -/
def selfResolvingGet : commandGet :=
  { plainGet with output := some ⟨GoValue.str "", some pickFirst⟩ }

/-- The values found under `name` in an index map of a `riak.Object` (a
missing entry reads as the empty list). -/
def lookupIndex (m : List (String × List String)) (name : String) : List String :=
  match m.find? (fun e => e.1 = name) with
  | some e => e.2
  | none => []

/-- The explicit values recorded under `name` in `Command.indexes`, in stored
order. -/
def explicitValues : List (String × List String) → String → List String
  | [], _ => []
  | (k, vs) :: rest, name =>
    if k = name then vs ++ explicitValues rest name else explicitValues rest name

/-- A field that carries a non-empty index name and whose shape is neither
text (kind `String`) nor sequence of text (kind `Slice` with element kind
`String`). -/
def Field.unsupportedIndex (f : Field GoValue) : Bool :=
  decide (f.goriakindex ≠ "") && decide (f.Value.Kind ≠ Goriak.Kind.String)
    && !(decide (f.Value.Kind = Goriak.Kind.Slice)
          && decide (f.Value.ElemKind = some Goriak.Kind.String))

/-- The object a successful `SetJSON` stored in the built command. -/
def Command.storedObject (c : Command) : Option Object :=
  match c.riakCommand with
  | some (RiakCommand.storeValue b) => some b.content
  | _ => none

/-- The kinds whose values `json.Marshal` refuses with an
`UnsupportedTypeError`: channel, function and complex values. -/
def jsonUnsupportedKind : Kind → Bool
  | Kind.Chan => true
  | Kind.Func => true
  | Kind.Complex => true
  | _ => false

/-- A stand-in for the libraries on the sample inputs below. Like
`json.Marshal`, `jsonMarshal` refuses a record that has an exported field of
channel, function or complex kind; any other value is encoded as the
placeholder bytes of the empty JSON object. Decoding stores the text of the
bytes, and the build refuses an empty bucket name. -/
def sampleLibs : Libs :=
  { jsonMarshal := fun value =>
      match value with
      | some (GoValue.struct fields) =>
        if fields.any (fun f => f.Name.front.isUpper && jsonUnsupportedKind f.Value.Kind) then
          Except.error "json: unsupported type"
        else Except.ok [123, 125]
      | _ => Except.ok [123, 125],
    jsonUnmarshal := fun data _ => (GoValue.str (String.mk (data.map Char.ofNat)), none),
    jsonUnmarshalNil := fun _ => "json: Unmarshal(nil)",
    buildStoreError := fun b => if b.bucket = "" then some "riak: bucket is required" else none }

/-- A store command for bucket `users` with the explicit assignment
`(email, "bob@x.com")`. -/
def sampleStore : Command :=
  { bucket := "users", bucketType := "default", key := "u1",
    indexes := [("email", ["bob@x.com"])] }

/-- A record with a text field `Tag` annotated with index name `tag` and
content `"x"`, between two unannotated fields. -/
def taggedRecord : List (Field GoValue) :=
  [ ⟨"Age", "", GoValue.int 42⟩, ⟨"Tag", "tag", GoValue.str "x"⟩,
    ⟨"Scores", "", GoValue.slice Kind.Int [GoValue.int 1]⟩ ]

/-- A record with a text field annotated `tag` and an unannotated channel
field: `struct { Tag string; Ch chan int }`. -/
def taggedRecordWithChan : List (Field GoValue) :=
  [ ⟨"Tag", "tag", GoValue.str "x"⟩, ⟨"Ch", "", GoValue.chan⟩ ]

/-- A record whose second field is numeric and annotated with index name
`age`: the first field that index derivation cannot handle. -/
def numericIndexRecord : List (Field GoValue) :=
  [ ⟨"Name", "name", GoValue.str "Bob"⟩, ⟨"Age", "age", GoValue.int 42⟩,
    ⟨"Langs", "lang", GoValue.slice Kind.Int []⟩ ]

/-- A record with an annotated numeric field and a channel field:
`struct { Age int; Ch chan int }`. -/
def numericIndexRecordWithChan : List (Field GoValue) :=
  [ ⟨"Age", "age", GoValue.int 42⟩, ⟨"Ch", "", GoValue.chan⟩ ]

/-- The command a returning call produced, if the call returned. -/
def Exec.returned {α : Type} : Exec α → Option α
  | Exec.ret a => some a
  | Exec.fault _ => none

/-- What spec 4.1 lets one field contribute under its index name: nothing
without an annotation, the string content of a text field, one value per
element of a sequence-of-text field. -/
def Field.derivedValues (f : Field GoValue) : List String :=
  if f.goriakindex.length = 0 then []
  else if f.Value.Kind = Goriak.Kind.String then [f.Value.String]
  else if f.Value.Kind = Goriak.Kind.Slice ∧ f.Value.ElemKind = some Goriak.Kind.String then
    f.Value.Elems.map GoValue.String
  else []

/-- The field-derived values of spec 4.1 under `name`, in field declaration
order. -/
def derivedValues : List (Field GoValue) → String → List String
  | [], _ => []
  | f :: rest, name =>
    (if f.goriakindex = name then f.derivedValues else []) ++ derivedValues rest name

/-- The field-derived values of a value under `name`: those of its fields for
a record, none for any other kind. -/
def derivedValuesOf (v : GoValue) (name : String) : List String :=
  if v.Kind = Kind.Struct then derivedValues v.Fields name else []

/-- A record with a sequence-of-text field `Tags` annotated `tag` holding
`["a", "b"]`, after an annotated text field and before an unannotated one. -/
def sequenceRecord : List (Field GoValue) :=
  [ ⟨"Name", "name", GoValue.str "Bob"⟩,
    ⟨"Tags", "tag", GoValue.slice Kind.String [GoValue.str "a", GoValue.str "b"]⟩,
    ⟨"Age", "", GoValue.int 42⟩ ]

/-- A record with the sequence-of-text field `Tags` annotated `tag` and an
annotated numeric field: `struct { Tags []string; Age int }`, both tagged. -/
def sequenceRecordWithNumeric : List (Field GoValue) :=
  [ ⟨"Tags", "tag", GoValue.slice Kind.String [GoValue.str "a", GoValue.str "b"]⟩,
    ⟨"Age", "age", GoValue.int 42⟩ ]

/-- A transport whose fetch returns the single value `("A", "t1")`. -/
def singleValueSession : Session :=
  { execute := fun _ =>
      Except.ok ⟨true, ⟨false, [{ Value := [65], LastModified := 1, VClock := [116, 49] }]⟩⟩,
    store := fun _ => none }

/-- A transport whose fetch returns the two siblings. -/
def conflictSession : Session :=
  { execute := fun _ => Except.ok ⟨true, ⟨false, twoSiblings⟩⟩, store := fun _ => none }

/-- A structured read whose embedded `Command` carries an error recorded by an
earlier construction step. -/
def erroredGet : commandGet :=
  { plainGet with
    Command := { bucket := "users", bucketType := "default", err := some "earlier step failed" } }

/-- The command with the `err` field of its embedded `Command` set to `e`,
as an earlier construction step leaves it. -/
def commandGet.withErr (c : commandGet) (e : Option GoError) : commandGet :=
  { c with Command := { c.Command with err := e } }

/-- A raw read of key `u1` into an empty byte slot; there is no output
value. -/
def rawGet : commandGet :=
  { Command := { bucket := "users", bucketType := "default" },
    builder := Except.ok ⟨"users", "default", "u1"⟩,
    key := "u1",
    output := none,
    outputBytes := some [],
    isRawOutput := true }

/-- The output slot `struct { A string; B int }` holding `("old", 7)`. -/
def recordSlot : GoValue :=
  GoValue.struct [ ⟨"A", "", GoValue.str "old"⟩, ⟨"B", "", GoValue.int 7⟩ ]

/-- The slot `struct { A string; B int }` after `A` alone was decoded. -/
def recordSlotHalfDecoded : GoValue :=
  GoValue.struct [ ⟨"A", "", GoValue.str "x"⟩, ⟨"B", "", GoValue.int 7⟩ ]

/-- The bytes of the JSON text `{"A":"x","B":"y"}`. -/
def mismatchedJSON : Bytes :=
  [123, 34, 65, 34, 58, 34, 120, 34, 44, 34, 66, 34, 58, 34, 121, 34, 125]

/-- A stand-in for `encoding/json` on one input: decoding `{"A":"x","B":"y"}`
into `struct { A string; B int }` stores `"x"` in `A`, skips `B` and returns
the type error for `B`, as `json.Unmarshal` documents for a value that does
not fit its target; every other decode leaves the slot as it was and
succeeds. -/
def mismatchLibs : Libs :=
  { sampleLibs with
    jsonUnmarshal := fun data slot =>
      if data = mismatchedJSON then
        (recordSlotHalfDecoded,
          some "json: cannot unmarshal string into Go struct field .B of type int")
      else (slot, none) }

/-- A transport whose fetch returns the single value `{"A":"x","B":"y"}`. -/
def mismatchSession : Session :=
  { execute := fun _ =>
      Except.ok ⟨true, ⟨false, [{ Value := mismatchedJSON, LastModified := 1, VClock := [116, 49] }]⟩⟩,
    store := fun _ => none }

/-- A structured read of key `u1` into the slot `struct { A string; B int }`. -/
def recordGet : commandGet :=
  { plainGet with output := some ⟨recordSlot, none⟩ }

/-- The contents of the structured output slot of a command, if it has an
output value. -/
def commandGet.outputSlot (c : commandGet) : Option GoValue :=
  c.output.map (fun o => o.slot)

/-! ## Lemmas on the read path -/

theorem foldl_set_enumFrom {α β : Type} (g : α → β) (post : List β) :
    ∀ (vs : List α) (pre junk : List β), junk.length = vs.length →
      (vs.enumFrom pre.length).foldl (fun objs iv => objs.set iv.1 (g iv.2))
        (pre ++ junk ++ post) = pre ++ vs.map g ++ post := by
  intro vs
  induction vs with
  | nil =>
    intro pre junk h
    have hj : junk = [] := List.length_eq_zero.mp h
    simp [hj]
  | cons v vs ih =>
    intro pre junk h
    cases junk with
    | nil => simp at h
    | cons j js =>
      have hlen : js.length = vs.length := by simpa using h
      have hset : (pre ++ j :: js ++ post).set pre.length (g v)
          = (pre ++ [g v]) ++ js ++ post := by
        simp [List.set_append]
      have hstep := ih (pre ++ [g v]) js hlen
      simp only [List.length_append, List.length_singleton] at hstep
      simp only [List.enumFrom_cons, List.foldl_cons, hset, hstep]
      simp

theorem buildConflictObjects_eq_map (values : List Object) :
    buildConflictObjects values = values.map Object.toConflictObject := by
  have h := foldl_set_enumFrom Object.toConflictObject [] values []
    (List.replicate values.length default) (by simp)
  simpa [buildConflictObjects, List.enum, Object.toConflictObject] using h

theorem selectResolver_frame (c c1 : commandGet) (f : TaggedResolver)
    (h : selectResolver c = some (c1, f)) :
    c1.Command = c.Command ∧ c1.key = c.key ∧ c1.output = c.output
      ∧ c1.outputBytes = c.outputBytes ∧ c1.isRawOutput = c.isRawOutput := by
  unfold selectResolver at h
  split at h
  · simp only [Option.some.injEq, Prod.mk.injEq] at h
    obtain ⟨rfl, _⟩ := h
    simp
  · split at h
    · simp only [Option.some.injEq, Prod.mk.injEq] at h
      obtain ⟨rfl, _⟩ := h
      simp
    · simp at h

theorem fetch_conflict_eq (c c1 : commandGet) (f : TaggedResolver) (session : Session)
    (values : List Object) (hlen : 2 ≤ values.length)
    (hsel : selectResolver c = some (c1, f)) :
    c.fetchValueWithResolver session values =
      if (f.fn (buildConflictObjects values)).VClock.length = 0 then
        (c1, [Event.resolverCall f.source (buildConflictObjects values)],
          Exec.ret ⟨[], [], some errInvalidResolver⟩)
      else
        (c1,
          [Event.resolverCall f.source (buildConflictObjects values),
            Event.writeBack
              { bucket := c.Command.bucket, bucketType := c.Command.bucketType,
                rawValue := (f.fn (buildConflictObjects values)).Value, key := c.key,
                vclock := (f.fn (buildConflictObjects values)).VClock }
              (session.store
                { bucket := c.Command.bucket, bucketType := c.Command.bucketType,
                  rawValue := (f.fn (buildConflictObjects values)).Value, key := c.key,
                  vclock := (f.fn (buildConflictObjects values)).VClock })],
          Exec.ret ⟨(f.fn (buildConflictObjects values)).Value,
            (f.fn (buildConflictObjects values)).VClock, none⟩) := by
  obtain ⟨hC, hk, _⟩ := selectResolver_frame c c1 f hsel
  have hgt : values.length > 1 := hlen
  simp only [commandGet.fetchValueWithResolver, hgt, if_true, hsel, hC, hk]
  split <;> simp

theorem fetch_conflict_none (c : commandGet) (session : Session)
    (values : List Object) (hlen : 2 ≤ values.length)
    (hsel : selectResolver c = none) :
    c.fetchValueWithResolver session values =
      (c, [], Exec.ret ⟨[], [], some errNoResolver⟩) := by
  have hgt : values.length > 1 := hlen
  simp only [commandGet.fetchValueWithResolver, hgt, if_true, hsel]

theorem fetch_short (c : commandGet) (session : Session) (values : List Object)
    (hlen : ¬ 2 ≤ values.length) :
    c.fetchValueWithResolver session values =
      match values with
      | [] => (c, [], Exec.fault "index out of range [0] with length 0")
      | v :: _ => (c, [], Exec.ret ⟨v.Value, v.VClock, none⟩) := by
  have hgt : ¬ values.length > 1 := hlen
  simp only [commandGet.fetchValueWithResolver, hgt, if_false]
  cases values <;> rfl

/-! ## Claims on the read path -/

/-- C1: for a candidate list of exactly one element, `fetchValueWithResolver`
returns that candidate's `Value` and `VClock` with no error, leaves the command
as it was and has no effect at all (no strategy invocation, no write-back),
for every command, hence for every configured strategy and output value. -/
theorem fetchValueWithResolver_single (c : commandGet) (session : Session) (v : Object) :
    c.fetchValueWithResolver session [v] = (c, [], Exec.ret ⟨v.Value, v.VClock, none⟩) := by
  simp [commandGet.fetchValueWithResolver]

/-- C2 (the code at the failing input): with an empty candidate list, `Run`
returns the `NotFound` result when the response carries the not-found flag,
and raises the index-out-of-range fault of line 76 when it does not. -/
theorem Run_empty_candidates (c : commandGet) (libs : Libs) (session : Session)
    (req : FetchRequest) :
    ({ c with builder := Except.ok req }).Run libs
        { session with execute := fun _ => Except.ok ⟨true, ⟨true, []⟩⟩ }
      = ({ c with builder := Except.ok req }, [Event.build, Event.fetch req],
          Exec.ret ⟨some { NotFound := true }, some "Not found"⟩)
    ∧ (({ c with builder := Except.ok req }).Run libs
        { session with execute := fun _ => Except.ok ⟨true, ⟨false, []⟩⟩ }).2.2
      = Exec.fault "index out of range [0] with length 0" := by
  constructor
  · simp [commandGet.Run, commandGet.runFetched]
  · simp [commandGet.Run, commandGet.runFetched, commandGet.fetchValueWithResolver]

/-- C3: for two or more candidates, when no explicit strategy is set and the
output value (if any) has no resolver of its own, `fetchValueWithResolver`
returns the no-resolver error, leaves the command as it was and has no effect:
no strategy is invoked and no write-back is issued. -/
theorem fetchValueWithResolver_no_resolver (c : commandGet) (session : Session)
    (values : List Object) (hlen : 2 ≤ values.length)
    (hexplicit : c.conflictResolverFunc = none)
    (hself : ∀ o, c.output = some o → o.ConflictResolver = none) :
    c.fetchValueWithResolver session values
      = (c, [], Exec.ret ⟨[], [], some "goriak: Had conflict, but no conflict resolver"⟩) := by
  have hsel : selectResolver c = none := by
    unfold selectResolver
    rw [hexplicit]
    cases ho : c.output with
    | none => simp
    | some o => simp [hself o ho]
  exact fetch_conflict_none c session values hlen hsel

/-- Witness of C3: two siblings read by a command without any resolver. -/
theorem fetchValueWithResolver_no_resolver_witness :
    2 ≤ twoSiblings.length ∧
    plainGet.fetchValueWithResolver okSession twoSiblings
      = (plainGet, [], Exec.ret ⟨[], [], some "goriak: Had conflict, but no conflict resolver"⟩) :=
  ⟨by decide,
    fetchValueWithResolver_no_resolver plainGet okSession twoSiblings (by decide) rfl
      (by intro o ho; cases ho; rfl)⟩

/-- C4: for two or more candidates and a strategy in force whose outcome has
an empty `VClock`, `fetchValueWithResolver` returns the invalid-resolution
error and its only effect is the strategy invocation (no write-back);
conversely, on any input, a return carrying that error implies that there were
two or more candidates and that the strategy in force returned an empty
`VClock`. -/
theorem fetchValueWithResolver_invalid (c : commandGet) (session : Session)
    (values : List Object) :
    (∀ c1 f, 2 ≤ values.length → selectResolver c = some (c1, f) →
        (f.fn (buildConflictObjects values)).VClock.length = 0 →
        c.fetchValueWithResolver session values
          = (c1, [Event.resolverCall f.source (buildConflictObjects values)],
              Exec.ret ⟨[], [], some "goriak: Invalid value from conflict resolver"⟩))
    ∧ (∀ r, (c.fetchValueWithResolver session values).2.2 = Exec.ret r →
        r.err = some "goriak: Invalid value from conflict resolver" →
        2 ≤ values.length ∧ ∃ c1 f, selectResolver c = some (c1, f) ∧
          (f.fn (buildConflictObjects values)).VClock.length = 0) := by
  constructor
  · intro c1 f hlen hsel hv
    rw [fetch_conflict_eq c c1 f session values hlen hsel, if_pos hv]
    rfl
  · intro r hr herr
    by_cases hlen : 2 ≤ values.length
    · refine ⟨hlen, ?_⟩
      cases hsel : selectResolver c with
      | none =>
        rw [fetch_conflict_none c session values hlen hsel] at hr
        simp only [Exec.ret.injEq] at hr
        subst hr
        simp [errNoResolver] at herr
      | some p =>
        obtain ⟨c1, f⟩ := p
        refine ⟨c1, f, rfl, ?_⟩
        by_contra hv
        rw [fetch_conflict_eq c c1 f session values hlen hsel, if_neg hv] at hr
        simp only [Exec.ret.injEq] at hr
        subst hr
        simp at herr
    · rw [fetch_short c session values hlen] at hr
      cases values with
      | nil => simp at hr
      | cons v vs =>
        simp only [Exec.ret.injEq] at hr
        subst hr
        simp at herr

/-- Witness of C4: two siblings and an explicit strategy that drops the
causal token. -/
theorem fetchValueWithResolver_invalid_witness :
    (plainGet.ConflictResolver (some dropToken)).fetchValueWithResolver okSession twoSiblings
      = (plainGet.ConflictResolver (some dropToken),
          [Event.resolverCall ResolverSource.explicit (buildConflictObjects twoSiblings)],
          Exec.ret ⟨[], [], some "goriak: Invalid value from conflict resolver"⟩)
    ∧ (2 ≤ twoSiblings.length ∧ ∃ c1 f,
        selectResolver (plainGet.ConflictResolver (some dropToken)) = some (c1, f) ∧
          (f.fn (buildConflictObjects twoSiblings)).VClock.length = 0) :=
  ⟨(fetchValueWithResolver_invalid (plainGet.ConflictResolver (some dropToken)) okSession
      twoSiblings).1 (plainGet.ConflictResolver (some dropToken))
      ⟨ResolverSource.explicit, dropToken⟩ (by decide) rfl (by decide),
    (fetchValueWithResolver_invalid (plainGet.ConflictResolver (some dropToken)) okSession
      twoSiblings).2 ⟨[], [], some "goriak: Invalid value from conflict resolver"⟩
      (by decide) rfl⟩

/-- C5: for two or more candidates, after `ConflictResolver(fn)` on any
command, in particular on one whose output value has a resolver of its own,
the only strategy invocation is the one of the explicit `fn` on the
candidates, no invocation of the output value's resolver is recorded, and the
result is decided by the outcome of `fn` alone: the invalid-resolution error
when its `VClock` is empty, its `Value` and `VClock` otherwise. -/
theorem fetchValueWithResolver_explicit_first (c : commandGet) (session : Session)
    (values : List Object) (fn : Resolver) (hlen : 2 ≤ values.length) :
    (((c.ConflictResolver (some fn)).fetchValueWithResolver session values).2.1.filter
        Event.isResolverCall
      = [Event.resolverCall ResolverSource.explicit (buildConflictObjects values)])
    ∧ (∀ objs, Event.resolverCall ResolverSource.selfResolving objs ∉
        ((c.ConflictResolver (some fn)).fetchValueWithResolver session values).2.1)
    ∧ ((c.ConflictResolver (some fn)).fetchValueWithResolver session values).2.2
      = (if (fn (buildConflictObjects values)).VClock.length = 0 then
          Exec.ret ⟨[], [], some "goriak: Invalid value from conflict resolver"⟩
        else
          Exec.ret ⟨(fn (buildConflictObjects values)).Value,
            (fn (buildConflictObjects values)).VClock, none⟩) := by
  have hsel : selectResolver (c.ConflictResolver (some fn))
      = some (c.ConflictResolver (some fn), ⟨ResolverSource.explicit, fn⟩) := rfl
  rw [fetch_conflict_eq _ _ _ session values hlen hsel]
  by_cases hv : (fn (buildConflictObjects values)).VClock.length = 0
  · simp [hv, Event.isResolverCall, errInvalidResolver]
  · simp [hv, Event.isResolverCall]

/-- Witness of C5: the output value would pick the first sibling, the explicit
strategy picks the last one, and the last one is returned. -/
theorem fetchValueWithResolver_explicit_first_witness :
    ((selfResolvingGet.ConflictResolver (some pickLast)).fetchValueWithResolver okSession
        twoSiblings).2.2
      = Exec.ret ⟨[66], [116, 50], none⟩ :=
  (fetchValueWithResolver_explicit_first selfResolvingGet okSession twoSiblings pickLast
    (by decide)).2.2

/-- C6: for two or more candidates and a strategy in force whose outcome has
a non-empty `VClock`, `fetchValueWithResolver` issues exactly one write-back:
the chain `Bucket(c.bucket, c.bucketType).SetRaw(Value).Key(c.key).VClock(VClock).Run(session)`
with the bucket, bucket type and key of the reading command and the `Value`
and `VClock` of the outcome. -/
theorem fetchValueWithResolver_write_back (c c1 : commandGet) (f : TaggedResolver)
    (session : Session) (values : List Object) (hlen : 2 ≤ values.length)
    (hsel : selectResolver c = some (c1, f))
    (hv : (f.fn (buildConflictObjects values)).VClock.length ≠ 0) :
    (c.fetchValueWithResolver session values).2.1.filter Event.isWriteBack
      = [Event.writeBack
          { bucket := c.Command.bucket, bucketType := c.Command.bucketType,
            rawValue := (f.fn (buildConflictObjects values)).Value, key := c.key,
            vclock := (f.fn (buildConflictObjects values)).VClock }
          (session.store
            { bucket := c.Command.bucket, bucketType := c.Command.bucketType,
              rawValue := (f.fn (buildConflictObjects values)).Value, key := c.key,
              vclock := (f.fn (buildConflictObjects values)).VClock })] := by
  rw [fetch_conflict_eq c c1 f session values hlen hsel, if_neg hv]
  simp [Event.isWriteBack]

/-- Witness of C6: siblings `("A","t1")` and `("B","t2")`, the strategy picks
`("B","t2")`, and the single write-back stores `"B"` with token `"t2"` under
key `u1` of bucket `users`. -/
theorem fetchValueWithResolver_write_back_witness :
    ((plainGet.ConflictResolver (some pickLast)).fetchValueWithResolver okSession
        twoSiblings).2.1.filter Event.isWriteBack
      = [Event.writeBack
          { bucket := "users", bucketType := "default", rawValue := [66], key := "u1",
            vclock := [116, 50] } none] :=
  fetchValueWithResolver_write_back (plainGet.ConflictResolver (some pickLast))
    (plainGet.ConflictResolver (some pickLast)) ⟨ResolverSource.explicit, pickLast⟩
    okSession twoSiblings (by decide) rfl (by decide)

/-- C7: for two or more candidates and a strategy in force whose outcome has
a non-empty `VClock`, `fetchValueWithResolver` returns the `Value` and
`VClock` of the outcome with no error, and the returned triple is the same
under any two transports, hence for every result of the write-back. -/
theorem fetchValueWithResolver_ignores_store (c c1 : commandGet) (f : TaggedResolver)
    (session session2 : Session) (values : List Object) (hlen : 2 ≤ values.length)
    (hsel : selectResolver c = some (c1, f))
    (hv : (f.fn (buildConflictObjects values)).VClock.length ≠ 0) :
    (c.fetchValueWithResolver session values).2.2
      = Exec.ret ⟨(f.fn (buildConflictObjects values)).Value,
          (f.fn (buildConflictObjects values)).VClock, none⟩
    ∧ (c.fetchValueWithResolver session2 values).2.2
      = (c.fetchValueWithResolver session values).2.2 := by
  rw [fetch_conflict_eq c c1 f session values hlen hsel,
    fetch_conflict_eq c c1 f session2 values hlen hsel, if_neg hv, if_neg hv]
  exact ⟨rfl, rfl⟩

/-- Witness of C7: the same read under a transport whose store succeeds and
under one whose store fails. -/
theorem fetchValueWithResolver_ignores_store_witness :
    ((plainGet.ConflictResolver (some pickLast)).fetchValueWithResolver okSession
        twoSiblings).2.2 = Exec.ret ⟨[66], [116, 50], none⟩
    ∧ ((plainGet.ConflictResolver (some pickLast)).fetchValueWithResolver failingStoreSession
        twoSiblings).2.2
      = ((plainGet.ConflictResolver (some pickLast)).fetchValueWithResolver okSession
        twoSiblings).2.2 :=
  fetchValueWithResolver_ignores_store (plainGet.ConflictResolver (some pickLast))
    (plainGet.ConflictResolver (some pickLast)) ⟨ResolverSource.explicit, pickLast⟩
    okSession failingStoreSession twoSiblings (by decide) rfl (by decide)

/-- C8: for a candidate list of length n, at least two, and a strategy in
force, the strategy is invoked exactly once, on the list built by lines 50-58;
that list has length n and its i-th element carries the `Value`,
`LastModified` and `VClock` of the i-th candidate. -/
theorem fetchValueWithResolver_presents_all (c c1 : commandGet) (f : TaggedResolver)
    (session : Session) (values : List Object) (hlen : 2 ≤ values.length)
    (hsel : selectResolver c = some (c1, f)) :
    (c.fetchValueWithResolver session values).2.1.filter Event.isResolverCall
      = [Event.resolverCall f.source (buildConflictObjects values)]
    ∧ (buildConflictObjects values).length = values.length
    ∧ ∀ i : Nat, (buildConflictObjects values)[i]?
        = (values[i]?).map
            (fun v : Object =>
              ({ Value := v.Value, LastModified := v.LastModified, VClock := v.VClock } :
                ConflictObject)) := by
  refine ⟨?_, ?_, ?_⟩
  · rw [fetch_conflict_eq c c1 f session values hlen hsel]
    split <;> simp [Event.isResolverCall]
  · simp [buildConflictObjects_eq_map]
  · intro i
    rw [buildConflictObjects_eq_map, List.getElem?_map]
    rfl

/-- Witness of C8: the strategy sees both siblings, in the order received. -/
theorem fetchValueWithResolver_presents_all_witness :
    ((plainGet.ConflictResolver (some pickLast)).fetchValueWithResolver okSession
        twoSiblings).2.1.filter Event.isResolverCall
      = [Event.resolverCall ResolverSource.explicit
          [ { Value := [65], LastModified := 1, VClock := [116, 49] },
            { Value := [66], LastModified := 2, VClock := [116, 50] } ]] :=
  (fetchValueWithResolver_presents_all (plainGet.ConflictResolver (some pickLast))
    (plainGet.ConflictResolver (some pickLast)) ⟨ResolverSource.explicit, pickLast⟩
    okSession twoSiblings (by decide) rfl).1

/-! ## Lemmas on index derivation -/

theorem lookupIndex_insertIndex (m : List (String × List String)) (n v k : String) :
    lookupIndex (insertIndex m n v) k = lookupIndex m k ++ (if k = n then [v] else []) := by
  induction m with
  | nil =>
    by_cases h : n = k
    · simp [insertIndex, lookupIndex, h]
    · have h2 : ¬ k = n := fun e => h e.symm
      simp [insertIndex, lookupIndex, h, h2]
  | cons e rest ih =>
    obtain ⟨k0, vs⟩ := e
    by_cases h0 : k0 = n
    · subst h0
      by_cases h : k0 = k
      · simp [insertIndex, lookupIndex, h]
      · have h2 : ¬ k = k0 := fun e => h e.symm
        simp [insertIndex, lookupIndex, h, h2]
    · by_cases h : k0 = k
      · subst h
        simp [insertIndex, lookupIndex, h0]
      · simp only [insertIndex, h0, if_false]
        simp only [lookupIndex, List.find?_cons, h, decide_False] at ih ⊢
        exact ih

theorem lookupIndex_AddToIndex (o : Object) (n v k : String) :
    lookupIndex (o.AddToIndex n v).Indexes k
      = lookupIndex o.Indexes k ++ (if k = n then [v] else []) := by
  simp [Object.AddToIndex, lookupIndex_insertIndex]

theorem lookupIndex_foldl_AddToIndex (n k : String) (vals : List String) :
    ∀ o : Object,
      lookupIndex (vals.foldl (fun o1 val => o1.AddToIndex n val) o).Indexes k
        = lookupIndex o.Indexes k ++ (if k = n then vals else []) := by
  induction vals with
  | nil => intro o; simp
  | cons v vs ih =>
    intro o
    rw [List.foldl_cons, ih, lookupIndex_AddToIndex]
    by_cases h : k = n <;> simp [h]

theorem Value_foldl_AddToIndex (n : String) (vals : List String) :
    ∀ o : Object, (vals.foldl (fun o1 val => o1.AddToIndex n val) o).Value = o.Value := by
  induction vals with
  | nil => intro o; rfl
  | cons v vs ih => intro o; rw [List.foldl_cons, ih]; rfl

theorem lookupIndex_addExplicitIndexes (k : String) (indexes : List (String × List String)) :
    ∀ o : Object,
      lookupIndex (addExplicitIndexes indexes o).Indexes k
        = lookupIndex o.Indexes k ++ explicitValues indexes k := by
  induction indexes with
  | nil => intro o; simp [addExplicitIndexes, explicitValues]
  | cons e rest ih =>
    intro o
    obtain ⟨n, vals⟩ := e
    have ih2 := ih (vals.foldl (fun o1 val => o1.AddToIndex n val) o)
    simp only [addExplicitIndexes, List.foldl_cons] at ih2 ⊢
    rw [ih2, lookupIndex_foldl_AddToIndex]
    by_cases h : n = k
    · subst h; simp [explicitValues]
    · have h2 : ¬ k = n := fun e => h e.symm
      simp [explicitValues, h, h2]

theorem Value_addExplicitIndexes (indexes : List (String × List String)) :
    ∀ o : Object, (addExplicitIndexes indexes o).Value = o.Value := by
  induction indexes with
  | nil => intro o; rfl
  | cons e rest ih =>
    intro o
    have ih2 := ih (e.2.foldl (fun o1 val => o1.AddToIndex e.1 val) o)
    simp only [addExplicitIndexes, List.foldl_cons] at ih2 ⊢
    rw [ih2, Value_foldl_AddToIndex]

theorem setStructIndexes_unannotated (fields : List (Field GoValue))
    (h : ∀ f ∈ fields, f.goriakindex = "") :
    ∀ o : Object, setStructIndexes o fields = Except.ok o := by
  induction fields with
  | nil => intro o; rfl
  | cons f rest ih =>
    intro o
    have hf : f.goriakindex = "" := h f (List.mem_cons_self _ _)
    have hrest : ∀ g ∈ rest, g.goriakindex = "" := fun g hg => h g (List.mem_cons_of_mem _ hg)
    simp [setStructIndexes, hf, ih hrest]

theorem setStructIndexes_append_unannotated (pre rest : List (Field GoValue))
    (h : ∀ f ∈ pre, f.goriakindex = "") :
    ∀ o : Object, setStructIndexes o (pre ++ rest) = setStructIndexes o rest := by
  induction pre with
  | nil => intro o; rfl
  | cons f pre ih =>
    intro o
    have hf : f.goriakindex = "" := h f (List.mem_cons_self _ _)
    have hpre : ∀ g ∈ pre, g.goriakindex = "" := fun g hg => h g (List.mem_cons_of_mem _ hg)
    simp [setStructIndexes, hf, ih hpre]

theorem length_eq_zero_of_ne_empty (n : String) (h : n ≠ "") : ¬ n.length = 0 := by
  intro hl
  apply h
  cases n with
  | mk data =>
    have : data = [] := List.length_eq_zero.mp hl
    subst this
    rfl

theorem setStructIndexes_first_unsupported (fields : List (Field GoValue)) (f : Field GoValue)
    (h : fields.find? Field.unsupportedIndex = some f) :
    ∀ o : Object,
      setStructIndexes o fields = Except.error ("Did not know how to set index: " ++ f.Name) := by
  induction fields with
  | nil => simp at h
  | cons g rest ih =>
    intro o
    rw [List.find?_cons] at h
    cases hg : Field.unsupportedIndex g with
    | true =>
      rw [hg] at h
      simp only [Option.some.injEq] at h
      subst h
      simp only [Field.unsupportedIndex, Bool.and_eq_true, decide_eq_true_eq,
        Bool.not_eq_true', Bool.and_eq_false_iff, decide_eq_false_iff_not] at hg
      obtain ⟨⟨hn, hk⟩, hs⟩ := hg
      have hl := length_eq_zero_of_ne_empty _ hn
      have hs2 : ¬ (g.Value.Kind = Kind.Slice ∧ g.Value.ElemKind = some Kind.String) := by
        rintro ⟨a, b⟩
        cases hs with
        | inl x => exact x a
        | inr x => exact x b
      simp [setStructIndexes, hl, hk, hs2]
    | false =>
      rw [hg] at h
      have ihh := ih h
      simp only [Field.unsupportedIndex, Bool.and_eq_false_iff, decide_eq_false_iff_not,
        Bool.not_eq_false', Bool.and_eq_true, decide_eq_true_eq, ne_eq, not_not] at hg
      unfold setStructIndexes
      by_cases hl : g.goriakindex.length = 0
      · simp [hl, ihh]
      · by_cases hk : g.Value.Kind = Kind.String
        · simp [hl, hk, ihh]
        · have hn : ¬ g.goriakindex = "" := by
            intro e
            apply hl
            rw [e]
            rfl
          have hs : g.Value.Kind = Kind.Slice ∧ g.Value.ElemKind = some Kind.String := by
            rcases hg with (hg | hg) | hg
            · exact absurd hg hn
            · exact absurd hg hk
            · exact hg
          simp [hl, hk, hs, ihh]

/-! ## Claims on index derivation -/

/-- C9, as stated, fails: the record `struct { Age int; Ch chan int }` with
`Age` annotated has an annotated numeric field, yet `SetJSON` returns the
error of `json.Marshal` (line 17), which is not the mapping error naming
`Age`. -/
theorem SetJSON_unsupported_field_after_encode_error :
    (numericIndexRecordWithChan.find? Field.unsupportedIndex).map (fun f => f.Name) = some "Age"
    ∧ ((sampleStore.SetJSON sampleLibs (some (GoValue.struct numericIndexRecordWithChan))).returned.bind
        (fun c => c.err)) = some "json: unsupported type"
    ∧ ((sampleStore.SetJSON sampleLibs (some (GoValue.struct numericIndexRecordWithChan))).returned.bind
        (fun c => c.err)) ≠ some "Did not know how to set index: Age" := by
  refine ⟨by decide, by decide, by decide⟩

/-- C9, amended: for a record that `json.Marshal` encodes and that has a field
with a non-empty index name whose shape is neither text nor sequence of text,
`SetJSON` returns the receiver with only `err` changed, to the mapping error
naming the first such field in declaration order; `riakCommand` and
`commandType` are as before, so no command and no index set is produced. -/
theorem SetJSON_unsupported_field (c : Command) (libs : Libs)
    (fields : List (Field GoValue)) (f : Field GoValue) (data : Bytes)
    (hm : libs.jsonMarshal (some (GoValue.struct fields)) = Except.ok data)
    (hfirst : fields.find? Field.unsupportedIndex = some f) :
    c.SetJSON libs (some (GoValue.struct fields))
      = Exec.ret { c with err := some ("Did not know how to set index: " ++ f.Name) } := by
  have h := setStructIndexes_first_unsupported fields f hfirst
    (addExplicitIndexes c.indexes { Value := data })
  simp [Command.SetJSON, hm, GoValue.Kind, GoValue.Fields, h]

/-- Witness of C9: the record with fields `Name` (text), `Age` (numeric,
annotated) and `Langs` (sequence of numbers, annotated) fails on `Age`. -/
theorem SetJSON_unsupported_field_witness :
    sampleStore.SetJSON sampleLibs (some (GoValue.struct numericIndexRecord))
      = Exec.ret { sampleStore with err := some "Did not know how to set index: Age" } :=
  SetJSON_unsupported_field sampleStore sampleLibs numericIndexRecord
    ⟨"Age", "age", GoValue.int 42⟩ [123, 125] rfl rfl

/-- C10, as stated, fails: in `struct { Tag string; Ch chan int }` the only
annotated field is the text field `Tag`, yet the unannotated channel field
makes `json.Marshal` fail, so `SetJSON` returns an error and attaches no index
assignment at all. -/
theorem SetJSON_text_field_after_encode_error :
    ((sampleStore.SetJSON sampleLibs (some (GoValue.struct taggedRecordWithChan))).returned.bind
        (fun c => c.err)) = some "json: unsupported type"
    ∧ ((sampleStore.SetJSON sampleLibs (some (GoValue.struct taggedRecordWithChan))).returned.bind
        (fun c => c.storedObject)) = none := by
  refine ⟨by decide, by decide⟩

/-- C10, amended: for a record that `json.Marshal` encodes, whose only
annotated field is a text field with index name `n` and content `s`, and a
command whose build succeeds, `SetJSON` stores an object whose values under
every index name are the explicit values of that name followed, for the name
`n`, by `s`; unannotated fields contribute nothing and cause no mapping
error. -/
theorem SetJSON_text_field (c : Command) (libs : Libs) (pre post : List (Field GoValue))
    (name n s : String) (data : Bytes)
    (hm : libs.jsonMarshal (some (GoValue.struct (pre ++ ⟨name, n, GoValue.str s⟩ :: post)))
      = Except.ok data)
    (hb : ∀ content key, libs.buildStoreError ⟨c.bucket, c.bucketType, content, key⟩ = none)
    (hn : n ≠ "")
    (hpre : ∀ f ∈ pre, f.goriakindex = "") (hpost : ∀ f ∈ post, f.goriakindex = "") :
    ∃ object : Object,
      c.SetJSON libs (some (GoValue.struct (pre ++ ⟨name, n, GoValue.str s⟩ :: post)))
        = Exec.ret
            { c with
              riakCommand := some (RiakCommand.storeValue
                ⟨c.bucket, c.bucketType, object, if c.key ≠ "" then some c.key else none⟩),
              commandType := CommandType.riakStoreValueCommand }
      ∧ object.Value = data
      ∧ ∀ k, lookupIndex object.Indexes k
          = explicitValues c.indexes k ++ (if k = n then [s] else []) := by
  have hl := length_eq_zero_of_ne_empty n hn
  have hfields : setStructIndexes (addExplicitIndexes c.indexes { Value := data })
      (pre ++ ⟨name, n, GoValue.str s⟩ :: post)
      = Except.ok ((addExplicitIndexes c.indexes { Value := data }).AddToIndex n s) := by
    rw [setStructIndexes_append_unannotated pre _ hpre]
    simp [setStructIndexes, hl, GoValue.Kind, GoValue.String,
      setStructIndexes_unannotated post hpost]
  refine ⟨(addExplicitIndexes c.indexes { Value := data }).AddToIndex n s, ?_, ?_, ?_⟩
  · by_cases hk : c.key = ""
    · simp [Command.SetJSON, hm, GoValue.Kind, GoValue.Fields, hfields, hb, hk]
    · simp [Command.SetJSON, hm, GoValue.Kind, GoValue.Fields, hfields, hb, hk]
  · show (addExplicitIndexes c.indexes { Value := data }).Value = data
    rw [Value_addExplicitIndexes]
  · intro k
    rw [lookupIndex_AddToIndex, lookupIndex_addExplicitIndexes]
    simp [lookupIndex]

/-- Witness of C10: index name `tag`, content `"x"`, explicit assignment
`(email, "bob@x.com")`. -/
theorem SetJSON_text_field_witness :
    ∃ object : Object,
      sampleStore.SetJSON sampleLibs (some (GoValue.struct taggedRecord))
        = Exec.ret
            { sampleStore with
              riakCommand := some (RiakCommand.storeValue
                ⟨"users", "default", object, some "u1"⟩),
              commandType := CommandType.riakStoreValueCommand }
      ∧ object.Value = [123, 125]
      ∧ ∀ k, lookupIndex object.Indexes k
          = explicitValues [("email", ["bob@x.com"])] k ++ (if k = "tag" then ["x"] else []) :=
  SetJSON_text_field sampleStore sampleLibs [⟨"Age", "", GoValue.int 42⟩]
    [⟨"Scores", "", GoValue.slice Kind.Int [GoValue.int 1]⟩] "Tag" "tag" "x" [123, 125]
    rfl (by intro content key; rfl) (by decide)
    (by intro f hf; simp at hf; subst hf; rfl) (by intro f hf; simp at hf; subst hf; rfl)

/-! ## Index derivation against the derived values of the specification -/

theorem foldl_elems_AddToIndex (n : String) (elems : List GoValue) (o : Object) :
    elems.foldl (fun o1 e => o1.AddToIndex n e.String) o
      = (elems.map GoValue.String).foldl (fun o1 val => o1.AddToIndex n val) o := by
  rw [List.foldl_map]

theorem setStructIndexes_lookup (fields : List (Field GoValue)) :
    ∀ o o1 : Object, setStructIndexes o fields = Except.ok o1 →
      o1.Value = o.Value ∧
      ∀ k, lookupIndex o1.Indexes k = lookupIndex o.Indexes k ++ derivedValues fields k := by
  induction fields with
  | nil =>
    intro o o1 h
    simp only [setStructIndexes, Except.ok.injEq] at h
    subst h
    simp [derivedValues]
  | cons f rest ih =>
    intro o o1 h
    unfold setStructIndexes at h
    by_cases hl : f.goriakindex.length = 0
    · simp only [hl, if_true] at h
      obtain ⟨hv, hk⟩ := ih o o1 h
      refine ⟨hv, fun k => ?_⟩
      rw [hk k]
      simp [derivedValues, Field.derivedValues, hl]
    · by_cases hs : f.Value.Kind = Kind.String
      · simp only [hl, hs, if_true, if_false] at h
        obtain ⟨hv, hk⟩ := ih _ o1 h
        refine ⟨by rw [hv]; rfl, fun k => ?_⟩
        rw [hk k, lookupIndex_AddToIndex]
        by_cases hn : f.goriakindex = k
        · subst hn
          simp [derivedValues, Field.derivedValues, hl, hs]
        · have hn2 : ¬ k = f.goriakindex := fun e => hn e.symm
          simp [derivedValues, hn, hn2]
      · by_cases hq : f.Value.Kind = Kind.Slice ∧ f.Value.ElemKind = some Kind.String
        · simp only [hl, hs, hq, if_true, if_false, and_self] at h
          obtain ⟨hv, hk⟩ := ih _ o1 h
          refine ⟨?_, fun k => ?_⟩
          · rw [hv, foldl_elems_AddToIndex, Value_foldl_AddToIndex]
          · rw [hk k, foldl_elems_AddToIndex, lookupIndex_foldl_AddToIndex]
            by_cases hn : f.goriakindex = k
            · subst hn
              simp [derivedValues, Field.derivedValues, hl, hs, hq]
            · have hn2 : ¬ k = f.goriakindex := fun e => hn e.symm
              simp [derivedValues, hn, hn2]
        · simp only [hl, hs, hq, if_false] at h
          simp at h

theorem setStructIndexes_supported (fields : List (Field GoValue))
    (h : fields.find? Field.unsupportedIndex = none) :
    ∀ o : Object, ∃ o1, setStructIndexes o fields = Except.ok o1 := by
  induction fields with
  | nil => intro o; exact ⟨o, rfl⟩
  | cons g rest ih =>
    intro o
    rw [List.find?_cons] at h
    cases hg : Field.unsupportedIndex g with
    | true => rw [hg] at h; simp at h
    | false =>
      rw [hg] at h
      have ihh := ih h
      simp only [Field.unsupportedIndex, Bool.and_eq_false_iff, decide_eq_false_iff_not,
        Bool.not_eq_false', Bool.and_eq_true, decide_eq_true_eq, ne_eq, not_not] at hg
      unfold setStructIndexes
      by_cases hl : g.goriakindex.length = 0
      · simp only [hl, if_true]
        exact ihh o
      · by_cases hk : g.Value.Kind = Kind.String
        · simp only [hl, hk, if_true, if_false]
          exact ihh _
        · have hn : ¬ g.goriakindex = "" := by
            intro e
            apply hl
            rw [e]
            rfl
          have hs : g.Value.Kind = Kind.Slice ∧ g.Value.ElemKind = some Kind.String := by
            rcases hg with (hg | hg) | hg
            · exact absurd hg hn
            · exact absurd hg hk
            · exact hg
          simp only [hl, hk, hs, if_true, if_false, and_self]
          exact ihh _

theorem SetJSON_success (c c1 : Command) (libs : Libs) (value : Option GoValue)
    (h : c.SetJSON libs value = Exec.ret c1) (hok : c1.err = none) :
    ∃ v data object, value = some v ∧ libs.jsonMarshal value = Except.ok data
      ∧ c1 = { c with
          riakCommand := some (RiakCommand.storeValue
            ⟨c.bucket, c.bucketType, object, if c.key ≠ "" then some c.key else none⟩),
          commandType := CommandType.riakStoreValueCommand }
      ∧ object.Value = data
      ∧ ∀ k, lookupIndex object.Indexes k = explicitValues c.indexes k ++ derivedValuesOf v k := by
  unfold Command.SetJSON at h
  cases hm : libs.jsonMarshal value with
  | error e =>
    simp only [hm, Exec.ret.injEq] at h
    subst h
    simp at hok
  | ok data =>
    simp only [hm] at h
    cases value with
    | none => simp at h
    | some v =>
      simp only at h
      have hbase : ∀ k, lookupIndex (addExplicitIndexes c.indexes { Value := data }).Indexes k
          = explicitValues c.indexes k := by
        intro k
        rw [lookupIndex_addExplicitIndexes]
        simp [lookupIndex]
      have hbaseV : (addExplicitIndexes c.indexes { Value := data }).Value = data := by
        rw [Value_addExplicitIndexes]
      by_cases hk : v.Kind = Kind.Struct
      · simp only [hk, if_true] at h
        cases hd : setStructIndexes (addExplicitIndexes c.indexes { Value := data }) v.Fields with
        | error e =>
          simp only [hd, Exec.ret.injEq] at h
          subst h
          simp at hok
        | ok object =>
          simp only [hd] at h
          obtain ⟨hv, hl⟩ := setStructIndexes_lookup v.Fields _ object hd
          split at h
          · simp only [Exec.ret.injEq] at h
            subst h
            simp at hok
          · simp only [Exec.ret.injEq] at h
            refine ⟨v, data, object, rfl, rfl, ?_, by rw [hv, hbaseV], fun k => ?_⟩
            · rw [← h]
              by_cases hkey : c.key = "" <;> simp [hkey]
            · rw [hl k, hbase k]
              simp [derivedValuesOf, hk]
      · simp only [hk, if_false] at h
        split at h
        · simp only [Exec.ret.injEq] at h
          subst h
          simp at hok
        · simp only [Exec.ret.injEq] at h
          refine ⟨v, data, _, rfl, rfl, ?_, hbaseV, fun k => ?_⟩
          · rw [← h]
            by_cases hkey : c.key = "" <;> simp [hkey]
          · rw [hbase k]
            simp [derivedValuesOf, hk]

theorem map_String_str (es : List String) :
    List.map GoValue.String (List.map GoValue.str es) = es := by
  induction es with
  | nil => rfl
  | cons e es ih =>
    rw [List.map_cons, List.map_cons, ih]
    rfl

theorem derivedValues_append (pre rest : List (Field GoValue)) (k : String) :
    derivedValues (pre ++ rest) k = derivedValues pre k ++ derivedValues rest k := by
  induction pre with
  | nil => simp [derivedValues]
  | cons f pre ih => simp [derivedValues, ih]

theorem find?_unsupported_append (pre post : List (Field GoValue)) (f : Field GoValue)
    (hpre : pre.find? Field.unsupportedIndex = none)
    (hf : Field.unsupportedIndex f = false)
    (hpost : post.find? Field.unsupportedIndex = none) :
    (pre ++ f :: post).find? Field.unsupportedIndex = none := by
  rw [List.find?_append, hpre, List.find?_cons, hf]
  simpa using hpost

theorem explicitValues_of_not_mem (idx : List (String × List String)) (k : String)
    (h : k ∉ idx.map Prod.fst) : explicitValues idx k = [] := by
  induction idx with
  | nil => rfl
  | cons e rest ih =>
    obtain ⟨n, vs⟩ := e
    simp only [List.map_cons, List.mem_cons, not_or] at h
    have hn : ¬ n = k := fun e => h.1 e.symm
    simp [explicitValues, hn, ih h.2]

theorem explicitValues_of_mem (idx : List (String × List String)) (k : String)
    (vs : List String) (hkeys : (idx.map Prod.fst).Nodup) (hmem : (k, vs) ∈ idx) :
    explicitValues idx k = vs := by
  induction idx with
  | nil => simp at hmem
  | cons e rest ih =>
    obtain ⟨n, ws⟩ := e
    simp only [List.map_cons, List.nodup_cons] at hkeys
    rcases List.mem_cons.mp hmem with heq | hrest
    · simp only [Prod.mk.injEq] at heq
      obtain ⟨rfl, rfl⟩ := heq
      simp [explicitValues, explicitValues_of_not_mem rest k hkeys.1]
    · have hne : ¬ n = k := by
        intro e
        apply hkeys.1
        rw [e]
        exact List.mem_map.mpr ⟨(k, vs), hrest, rfl⟩
      simp [explicitValues, hne, ih hkeys.2 hrest]

theorem explicitValues_perm (idx1 idx2 : List (String × List String)) (k : String)
    (hperm : idx1.Perm idx2) (hkeys : (idx1.map Prod.fst).Nodup) :
    explicitValues idx1 k = explicitValues idx2 k := by
  induction hperm with
  | nil => rfl
  | cons e _ ih =>
    obtain ⟨n, vs⟩ := e
    simp only [List.map_cons, List.nodup_cons] at hkeys
    simp [explicitValues, ih hkeys.2]
  | swap x y l =>
    obtain ⟨n, vs⟩ := x
    obtain ⟨m, ws⟩ := y
    simp only [List.map_cons, List.nodup_cons, List.mem_cons, not_or] at hkeys
    have hne : ¬ m = n := hkeys.1.1
    by_cases h1 : n = k
    · have h2 : ¬ m = k := fun e => hne (e.trans h1.symm)
      simp [explicitValues, h1, h2]
    · by_cases h2 : m = k <;> simp [explicitValues, h1, h2]
  | trans h12 _ ih1 ih2 =>
    rw [ih1 hkeys]
    exact ih2 ((h12.map Prod.fst).nodup_iff.mp hkeys)

theorem SetJSON_non_record (c : Command) (libs : Libs) (v : GoValue) (data : Bytes)
    (hk : v.Kind ≠ Kind.Struct)
    (hm : libs.jsonMarshal (some v) = Except.ok data)
    (hb : ∀ content key, libs.buildStoreError ⟨c.bucket, c.bucketType, content, key⟩ = none) :
    ∃ object : Object,
      c.SetJSON libs (some v)
        = Exec.ret
            { c with
              riakCommand := some (RiakCommand.storeValue
                ⟨c.bucket, c.bucketType, object, if c.key ≠ "" then some c.key else none⟩),
              commandType := CommandType.riakStoreValueCommand }
      ∧ object.Value = data
      ∧ ∀ k, lookupIndex object.Indexes k = explicitValues c.indexes k := by
  refine ⟨addExplicitIndexes c.indexes { Value := data }, ?_, ?_, ?_⟩
  · by_cases hkey : c.key = ""
    · simp [Command.SetJSON, hm, hk, hb, hkey]
    · simp [Command.SetJSON, hm, hk, hb, hkey]
  · rw [Value_addExplicitIndexes]
  · intro k
    rw [lookupIndex_addExplicitIndexes]
    simp [lookupIndex]

/-! ## Further claims on index derivation -/

/-- C11, as stated, fails: in `struct { Tags []string; Age int }` with both
fields annotated, the sequence-of-text field `Tags` holds `["a", "b"]`, yet
`SetJSON` stops at the numeric field `Age` with the mapping error of line 69
and attaches no assignment, not even those of `Tags`. -/
theorem SetJSON_sequence_field_after_mapping_error :
    ((sampleStore.SetJSON sampleLibs (some (GoValue.struct sequenceRecordWithNumeric))).returned.bind
        (fun c => c.err)) = some "Did not know how to set index: Age"
    ∧ ((sampleStore.SetJSON sampleLibs (some (GoValue.struct sequenceRecordWithNumeric))).returned.bind
        (fun c => c.storedObject)) = none := by
  refine ⟨by decide, by decide⟩

/-- C11, amended: for a record that `json.Marshal` encodes, all of whose other
annotated fields are text or sequence of text, with a sequence-of-text field
annotated `n` holding `es`, and a command whose build succeeds, `SetJSON`
stores an object whose values under every index name are the explicit values,
then the values derived from the fields before that field, then (under `n`)
exactly the elements `es` in element order, duplicates kept and nothing for
an empty sequence, then the values derived from the fields after it. -/
theorem SetJSON_sequence_field (c : Command) (libs : Libs) (pre post : List (Field GoValue))
    (name n : String) (es : List String) (data : Bytes)
    (hm : libs.jsonMarshal (some (GoValue.struct
        (pre ++ ⟨name, n, GoValue.slice Kind.String (es.map GoValue.str)⟩ :: post)))
      = Except.ok data)
    (hb : ∀ content key, libs.buildStoreError ⟨c.bucket, c.bucketType, content, key⟩ = none)
    (hn : n ≠ "")
    (hpre : pre.find? Field.unsupportedIndex = none)
    (hpost : post.find? Field.unsupportedIndex = none) :
    ∃ object : Object,
      c.SetJSON libs (some (GoValue.struct
          (pre ++ ⟨name, n, GoValue.slice Kind.String (es.map GoValue.str)⟩ :: post)))
        = Exec.ret
            { c with
              riakCommand := some (RiakCommand.storeValue
                ⟨c.bucket, c.bucketType, object, if c.key ≠ "" then some c.key else none⟩),
              commandType := CommandType.riakStoreValueCommand }
      ∧ ∀ k, lookupIndex object.Indexes k
          = explicitValues c.indexes k ++ derivedValues pre k
              ++ (if k = n then es else []) ++ derivedValues post k := by
  have hl := length_eq_zero_of_ne_empty n hn
  have hf : Field.unsupportedIndex
      (⟨name, n, GoValue.slice Kind.String (es.map GoValue.str)⟩ : Field GoValue) = false := by
    simp [Field.unsupportedIndex, GoValue.Kind, GoValue.ElemKind]
  have hall := find?_unsupported_append pre post _ hpre hf hpost
  obtain ⟨object, hobj⟩ := setStructIndexes_supported _ hall
    (addExplicitIndexes c.indexes { Value := data })
  obtain ⟨_, hlook⟩ := setStructIndexes_lookup _ _ object hobj
  have hmap := map_String_str es
  refine ⟨object, ?_, fun k => ?_⟩
  · by_cases hk : c.key = ""
    · simp [Command.SetJSON, hm, GoValue.Kind, GoValue.Fields, hobj, hb, hk]
    · simp [Command.SetJSON, hm, GoValue.Kind, GoValue.Fields, hobj, hb, hk]
  · rw [hlook k, lookupIndex_addExplicitIndexes, derivedValues_append]
    by_cases hk : n = k
    · subst hk
      simp [lookupIndex, derivedValues, Field.derivedValues, hl, GoValue.Kind,
        GoValue.ElemKind, GoValue.Elems, hmap]
    · have hk2 : ¬ k = n := fun e => hk e.symm
      simp [lookupIndex, derivedValues, hk, hk2]

/-- Witness of C11: the field `Tags` holds `["a", "b"]` under index name
`tag`; the stored values under `tag` are `"a"` then `"b"`. -/
theorem SetJSON_sequence_field_witness :
    ∃ object : Object,
      sampleStore.SetJSON sampleLibs (some (GoValue.struct sequenceRecord))
        = Exec.ret
            { sampleStore with
              riakCommand := some (RiakCommand.storeValue
                ⟨"users", "default", object, some "u1"⟩),
              commandType := CommandType.riakStoreValueCommand }
      ∧ ∀ k, lookupIndex object.Indexes k
          = explicitValues [("email", ["bob@x.com"])] k
              ++ derivedValues [⟨"Name", "name", GoValue.str "Bob"⟩] k
              ++ (if k = "tag" then ["a", "b"] else [])
              ++ derivedValues [⟨"Age", "", GoValue.int 42⟩] k :=
  SetJSON_sequence_field sampleStore sampleLibs [⟨"Name", "name", GoValue.str "Bob"⟩]
    [⟨"Age", "", GoValue.int 42⟩] "Tags" "tag" ["a", "b"] [123, 125]
    rfl (by intro content key; rfl) (by decide) rfl rfl

/-- C12: when `SetJSON` returns a command without error, that command holds a
stored object in which, under every index name, the explicit values of that
name come first, unaltered and in stored order; hence every explicit
assignment occurs in the stored indexes at least as often as among the
explicit assignments. -/
theorem SetJSON_keeps_explicit (c c1 : Command) (libs : Libs) (value : Option GoValue)
    (h : c.SetJSON libs value = Exec.ret c1) (hok : c1.err = none) :
    ∃ object, c1.storedObject = some object
      ∧ ∀ name : String,
          (∃ rest, lookupIndex object.Indexes name = explicitValues c.indexes name ++ rest)
          ∧ ∀ val : String,
              (explicitValues c.indexes name).count val
                ≤ (lookupIndex object.Indexes name).count val := by
  obtain ⟨v, data, object, _, _, hc1, _, hlook⟩ := SetJSON_success c c1 libs value h hok
  refine ⟨object, ?_, fun name => ⟨⟨derivedValuesOf v name, hlook name⟩, fun val => ?_⟩⟩
  · rw [hc1]
    rfl
  · rw [hlook name, List.count_append]
    exact Nat.le_add_right _ _

/-- Witness of C12: the explicit assignment `(email, "bob@x.com")` survives
the store of the record with the text field `Tag`. -/
theorem SetJSON_keeps_explicit_witness :
    ∃ object,
      Command.storedObject
          { sampleStore with
            riakCommand := some (RiakCommand.storeValue
              ⟨"users", "default",
                { Value := [123, 125], Indexes := [("email", ["bob@x.com"]), ("tag", ["x"])] },
                some "u1"⟩),
            commandType := CommandType.riakStoreValueCommand } = some object
      ∧ ∀ name : String,
          (∃ rest, lookupIndex object.Indexes name
              = explicitValues sampleStore.indexes name ++ rest)
          ∧ ∀ val : String,
              (explicitValues sampleStore.indexes name).count val
                ≤ (lookupIndex object.Indexes name).count val :=
  SetJSON_keeps_explicit sampleStore _ sampleLibs (some (GoValue.struct taggedRecord)) rfl rfl

/-- C13 (the code at the failing input): for the nil value, whenever
`json.Marshal` encodes it (it does, as `null`), `SetJSON` raises the fault of
the call `refType.Kind()` on the nil type of line 36, for every command. -/
theorem SetJSON_nil_value_faults (c : Command) (libs : Libs) (data : Bytes) :
    c.SetJSON { libs with jsonMarshal := fun _ => Except.ok data } none
      = Exec.fault "invalid memory address or nil pointer dereference" := by
  simp [Command.SetJSON]

/-- C19: for two enumeration orders of the same explicit index map (a
permutation of entries with distinct names) on which `SetJSON` returns without
error, the stored value lists under every index name are identical: the
explicit values of that name, which are the list stored under it, followed by
the field-derived values in field declaration order. -/
theorem SetJSON_indexes_order_independent (c c1 c2 : Command) (libs : Libs)
    (value : Option GoValue) (idx1 idx2 : List (String × List String))
    (hperm : idx1.Perm idx2) (hkeys : (idx1.map Prod.fst).Nodup)
    (h1 : ({ c with indexes := idx1 }).SetJSON libs value = Exec.ret c1) (hok1 : c1.err = none)
    (h2 : ({ c with indexes := idx2 }).SetJSON libs value = Exec.ret c2) (hok2 : c2.err = none) :
    ∃ v o1 o2, value = some v ∧ c1.storedObject = some o1 ∧ c2.storedObject = some o2
      ∧ ∀ k, lookupIndex o1.Indexes k = lookupIndex o2.Indexes k
          ∧ lookupIndex o1.Indexes k = explicitValues idx1 k ++ derivedValuesOf v k
          ∧ ∀ vs, (k, vs) ∈ idx1 → lookupIndex o1.Indexes k = vs ++ derivedValuesOf v k := by
  obtain ⟨v, _, o1, hv1, _, hc1, _, hl1⟩ := SetJSON_success _ c1 libs value h1 hok1
  obtain ⟨w, _, o2, hv2, _, hc2, _, hl2⟩ := SetJSON_success _ c2 libs value h2 hok2
  have hvw : w = v := by
    rw [hv1] at hv2
    exact (Option.some.inj hv2).symm
  subst hvw
  refine ⟨w, o1, o2, hv1, by rw [hc1]; rfl, by rw [hc2]; rfl, fun k => ⟨?_, hl1 k, ?_⟩⟩
  · rw [hl1 k, hl2 k]
    show explicitValues idx1 k ++ _ = explicitValues idx2 k ++ _
    rw [explicitValues_perm idx1 idx2 k hperm hkeys]
  · intro vs hmem
    rw [hl1 k]
    show explicitValues idx1 k ++ _ = _
    rw [explicitValues_of_mem idx1 k vs hkeys hmem]

/-- Witness of C19: the explicit names `email` and `city` enumerated in either
order give the same stored values under every name. -/
theorem SetJSON_indexes_order_independent_witness :
    ∃ v o1 o2, some (GoValue.struct taggedRecord) = some v
      ∧ Command.storedObject
          { sampleStore with
            indexes := [("email", ["bob@x.com"]), ("city", ["Oslo"])],
            riakCommand := some (RiakCommand.storeValue
              ⟨"users", "default",
                { Value := [123, 125],
                  Indexes := [("email", ["bob@x.com"]), ("city", ["Oslo"]), ("tag", ["x"])] },
                some "u1"⟩),
            commandType := CommandType.riakStoreValueCommand } = some o1
      ∧ Command.storedObject
          { sampleStore with
            indexes := [("city", ["Oslo"]), ("email", ["bob@x.com"])],
            riakCommand := some (RiakCommand.storeValue
              ⟨"users", "default",
                { Value := [123, 125],
                  Indexes := [("city", ["Oslo"]), ("email", ["bob@x.com"]), ("tag", ["x"])] },
                some "u1"⟩),
            commandType := CommandType.riakStoreValueCommand } = some o2
      ∧ ∀ k, lookupIndex o1.Indexes k = lookupIndex o2.Indexes k
          ∧ lookupIndex o1.Indexes k
              = explicitValues [("email", ["bob@x.com"]), ("city", ["Oslo"])] k
                  ++ derivedValuesOf v k
          ∧ ∀ vs, (k, vs) ∈ [("email", ["bob@x.com"]), ("city", ["Oslo"])] →
              lookupIndex o1.Indexes k = vs ++ derivedValuesOf v k :=
  SetJSON_indexes_order_independent sampleStore _ _ sampleLibs
    (some (GoValue.struct taggedRecord))
    [("email", ["bob@x.com"]), ("city", ["Oslo"])]
    [("city", ["Oslo"]), ("email", ["bob@x.com"])]
    (List.Perm.swap _ _ _) (by decide) rfl rfl rfl rfl

/-! ## Lemmas on `Run` -/

theorem fetch_frame (c : commandGet) (session : Session) (values : List Object) :
    (c.fetchValueWithResolver session values).1.Command = c.Command
      ∧ (c.fetchValueWithResolver session values).1.key = c.key
      ∧ (c.fetchValueWithResolver session values).1.output = c.output
      ∧ (c.fetchValueWithResolver session values).1.outputBytes = c.outputBytes
      ∧ (c.fetchValueWithResolver session values).1.isRawOutput = c.isRawOutput := by
  by_cases hlen : 2 ≤ values.length
  · cases hsel : selectResolver c with
    | none =>
      rw [fetch_conflict_none c session values hlen hsel]
      simp
    | some p =>
      obtain ⟨c1, f⟩ := p
      rw [fetch_conflict_eq c c1 f session values hlen hsel]
      have hfr := selectResolver_frame c c1 f hsel
      split <;> exact hfr
  · rw [fetch_short c session values hlen]
    cases values <;> simp

theorem Run_of_build_error (c : commandGet) (libs : Libs) (session : Session) (e : GoError)
    (hb : c.builder = Except.error e) :
    c.Run libs session = (c, [Event.build], Exec.ret ⟨none, some e⟩) := by
  simp [commandGet.Run, hb]

theorem Run_of_execute_error (c : commandGet) (libs : Libs) (session : Session)
    (req : FetchRequest) (e : GoError)
    (hb : c.builder = Except.ok req) (hx : session.execute req = Except.error e) :
    c.Run libs session = (c, [Event.build, Event.fetch req], Exec.ret ⟨none, some e⟩) := by
  simp [commandGet.Run, hb, hx]

theorem Run_of_fetched (c : commandGet) (libs : Libs) (session : Session)
    (req : FetchRequest) (fc : FetchValueCommand)
    (hb : c.builder = Except.ok req) (hx : session.execute req = Except.ok fc) :
    c.Run libs session
      = ((c.runFetched libs session fc).1,
          Event.build :: Event.fetch req :: (c.runFetched libs session fc).2.1,
          (c.runFetched libs session fc).2.2) := by
  simp [commandGet.Run, hb, hx]

theorem runFetched_unsuccessful (c : commandGet) (libs : Libs) (session : Session)
    (fc : FetchValueCommand) (hs : fc.Success = false) :
    c.runFetched libs session fc = (c, [], Exec.ret ⟨none, some "Not successful"⟩) := by
  simp [commandGet.runFetched, hs]

theorem runFetched_not_found (c : commandGet) (libs : Libs) (session : Session)
    (fc : FetchValueCommand) (hs : fc.Success = true) (hnf : fc.Response.IsNotFound = true) :
    c.runFetched libs session fc
      = (c, [], Exec.ret ⟨some { NotFound := true }, some "Not found"⟩) := by
  simp [commandGet.runFetched, hs, hnf]

theorem runFetched_fault (c c1 : commandGet) (libs : Libs) (session : Session)
    (fc : FetchValueCommand) (evs : List Event) (reason : String)
    (hs : fc.Success = true) (hnf : fc.Response.IsNotFound = false)
    (hf : c.fetchValueWithResolver session fc.Response.Values = (c1, evs, Exec.fault reason)) :
    c.runFetched libs session fc = (c1, evs, Exec.fault reason) := by
  simp [commandGet.runFetched, hs, hnf, hf]

theorem runFetched_error (c c1 : commandGet) (libs : Libs) (session : Session)
    (fc : FetchValueCommand) (evs : List Event) (value vclock : Bytes) (e : GoError)
    (hs : fc.Success = true) (hnf : fc.Response.IsNotFound = false)
    (hf : c.fetchValueWithResolver session fc.Response.Values
      = (c1, evs, Exec.ret ⟨value, vclock, some e⟩)) :
    c.runFetched libs session fc = (c1, evs, Exec.ret ⟨none, some e⟩) := by
  simp [commandGet.runFetched, hs, hnf, hf]

theorem runFetched_resolved (c c1 : commandGet) (libs : Libs) (session : Session)
    (fc : FetchValueCommand) (evs : List Event) (value vclock : Bytes)
    (hs : fc.Success = true) (hnf : fc.Response.IsNotFound = false)
    (hf : c.fetchValueWithResolver session fc.Response.Values
      = (c1, evs, Exec.ret ⟨value, vclock, none⟩)) :
    c.runFetched libs session fc =
      if c.isRawOutput then
        match c.outputBytes with
        | none => (c1, evs, Exec.fault "nil pointer dereference")
        | some _ =>
          ({ c1 with outputBytes := some value }, evs,
            Exec.ret ⟨some { Key := c.key, VClock := vclock }, none⟩)
      else
        match c.output with
        | none => (c1, evs, Exec.ret ⟨none, some (libs.jsonUnmarshalNil value)⟩)
        | some o =>
          match libs.jsonUnmarshal value o.slot with
          | (slot, some e) =>
            ({ c1 with output := some { o with slot := slot } }, evs, Exec.ret ⟨none, some e⟩)
          | (slot, none) =>
            ({ c1 with output := some { o with slot := slot } }, evs,
              Exec.ret ⟨some { Key := c.key, VClock := vclock }, none⟩) := by
  have hfr := fetch_frame c session fc.Response.Values
  rw [hf] at hfr
  obtain ⟨_, hkey, hout, hbytes, hraw⟩ := hfr
  simp only at hkey hout hbytes hraw
  simp only [commandGet.runFetched, hs, hnf, hf, hkey, hout, hbytes, hraw]
  simp

/-! ## Claims on `Run` -/

/-- C20: the handling of an executed fetch command in `Run` (lines 144-171)
yields the same command state (output slot and byte slot included), the same
effects (write-back included) and the same `Result` and error, or the same
fault, as `resultFetchValueCommandRaw` when `isRawOutput` is set and as
`resultFetchValueCommandJSON` when it is not. -/
theorem runFetched_agrees (c : commandGet) (libs : Libs) (session : Session)
    (fc : FetchValueCommand) :
    c.runFetched libs session fc =
      if c.isRawOutput then c.resultFetchValueCommandRaw session fc
      else c.resultFetchValueCommandJSON libs session fc := by
  have hfr := fetch_frame c session fc.Response.Values
  obtain ⟨_, _, _, _, hraw⟩ := hfr
  unfold commandGet.runFetched commandGet.resultFetchValueCommandRaw
    commandGet.resultFetchValueCommandJSON
  by_cases hs : fc.Success = true
  · by_cases hnf : fc.Response.IsNotFound = true
    · simp [hs, hnf]
    · simp only [hs, hnf, Bool.not_true, Bool.false_eq_true, if_false]
      generalize c.fetchValueWithResolver session fc.Response.Values = r at hraw
      obtain ⟨c1, evs, res⟩ := r
      simp only at hraw
      cases res with
      | fault reason => simp
      | ret fr =>
        obtain ⟨value, vclock, err⟩ := fr
        cases err with
        | some e => simp
        | none =>
          simp only [hraw]
  · simp [hs]

theorem selectResolver_withErr (c : commandGet) (e : Option GoError) :
    selectResolver (c.withErr e)
      = (selectResolver c).map (fun p => (p.1.withErr e, p.2)) := by
  unfold selectResolver
  cases hf : c.conflictResolverFunc with
  | some f => simp [commandGet.withErr, hf]
  | none =>
    cases ho : c.output.bind (fun o => o.ConflictResolver) with
    | some r => simp [commandGet.withErr, hf, ho]
    | none => simp [commandGet.withErr, hf, ho]

theorem fetch_withErr (c : commandGet) (e : Option GoError) (session : Session)
    (values : List Object) :
    (c.withErr e).fetchValueWithResolver session values
      = ((c.fetchValueWithResolver session values).1.withErr e,
          (c.fetchValueWithResolver session values).2) := by
  by_cases hlen : 2 ≤ values.length
  · cases hsel : selectResolver c with
    | none =>
      have hsel2 : selectResolver (c.withErr e) = none := by
        rw [selectResolver_withErr, hsel]
        rfl
      rw [fetch_conflict_none c session values hlen hsel,
        fetch_conflict_none (c.withErr e) session values hlen hsel2]
    | some p =>
      obtain ⟨c1, f⟩ := p
      have hsel2 : selectResolver (c.withErr e) = some (c1.withErr e, f) := by
        rw [selectResolver_withErr, hsel]
        rfl
      rw [fetch_conflict_eq c c1 f session values hlen hsel,
        fetch_conflict_eq (c.withErr e) (c1.withErr e) f session values hlen hsel2]
      split <;> rfl
  · rw [fetch_short c session values hlen, fetch_short (c.withErr e) session values hlen]
    cases values <;> rfl

theorem runFetched_withErr (c : commandGet) (e : Option GoError) (libs : Libs)
    (session : Session) (fc : FetchValueCommand) :
    (c.withErr e).runFetched libs session fc
      = ((c.runFetched libs session fc).1.withErr e, (c.runFetched libs session fc).2) := by
  unfold commandGet.runFetched
  rw [fetch_withErr]
  by_cases hs : fc.Success = true
  · by_cases hnf : fc.Response.IsNotFound = true
    · simp [hs, hnf]
    · simp only [hs, hnf, Bool.not_true, Bool.false_eq_true, if_false]
      generalize c.fetchValueWithResolver session fc.Response.Values = r
      obtain ⟨c1, evs, res⟩ := r
      cases res with
      | fault reason => rfl
      | ret fr =>
        obtain ⟨value, vclock, err⟩ := fr
        cases err with
        | some e1 => rfl
        | none =>
          simp only
          by_cases hraw : c1.isRawOutput = true
          · have hraw2 : (c1.withErr e).isRawOutput = true := hraw
            simp only [hraw, hraw2, if_true]
            cases hb : c1.outputBytes with
            | none =>
              have hb2 : (c1.withErr e).outputBytes = none := hb
              simp only [hb2]
            | some old =>
              have hb2 : (c1.withErr e).outputBytes = some old := hb
              simp only [hb2]
              rfl
          · have hraw1 : c1.isRawOutput = false := by simpa using hraw
            have hraw2 : (c1.withErr e).isRawOutput = false := hraw1
            simp only [hraw1, hraw2, Bool.false_eq_true, if_false]
            cases ho : c1.output with
            | none =>
              have ho2 : (c1.withErr e).output = none := ho
              simp only [ho2]
            | some o =>
              have ho2 : (c1.withErr e).output = some o := ho
              simp only [ho2]
              cases hdec : libs.jsonUnmarshal value o.slot with
              | mk slot derr =>
                cases derr with
                | some e1 => rfl
                | none => rfl
  · simp [hs]

theorem Run_withErr (c : commandGet) (e : Option GoError) (libs : Libs) (session : Session) :
    (c.withErr e).Run libs session
      = ((c.Run libs session).1.withErr e, (c.Run libs session).2) := by
  unfold commandGet.Run
  have hb : (c.withErr e).builder = c.builder := rfl
  rw [hb]
  cases c.builder with
  | error e1 => rfl
  | ok req =>
    simp only
    cases session.execute req with
    | error e1 => rfl
    | ok fc =>
      simp only
      rw [runFetched_withErr]

/-- C14 (the code at the failing input): a read whose embedded `Command`
carries an error from an earlier construction step still builds and executes
the fetch and returns a successful `Result` with no error; and in general the
effects and the results of `Run` on a command with a recorded error are those
of the same command without one, since `Run` never reads the `err` field. -/
theorem Run_ignores_recorded_error :
    (erroredGet.Command.err = some "earlier step failed"
      ∧ (erroredGet.Run sampleLibs singleValueSession).2
        = ([Event.build, Event.fetch ⟨"users", "default", "u1"⟩],
            Exec.ret ⟨some { NotFound := false, Key := "u1", VClock := [116, 49] }, none⟩))
    ∧ ∀ (c : commandGet) (libs : Libs) (session : Session) (e : GoError),
        ((c.withErr (some e)).Run libs session).2 = ((c.withErr none).Run libs session).2 := by
  refine ⟨⟨rfl, by decide⟩, ?_⟩
  intro c libs session e
  rw [Run_withErr, Run_withErr]

/-- C17: for two or more candidates, no explicit strategy and an output value
with a resolver `r` of its own, the only strategy invocation is the one of
`r` on the candidates, and the write-backs and the returned triple are those
obtained with `r` set as explicit strategy; and a command with no explicit
strategy and no output value, as in raw mode, fails on a conflict with the
no-resolver error and without any effect. -/
theorem fetchValueWithResolver_self_resolving (c : commandGet) (session : Session)
    (values : List Object) (o : OutputValue) (r : Resolver) (hlen : 2 ≤ values.length)
    (hexplicit : c.conflictResolverFunc = none) (hout : c.output = some o)
    (hown : o.ConflictResolver = some r) :
    ((c.fetchValueWithResolver session values).2.1.filter Event.isResolverCall
        = [Event.resolverCall ResolverSource.selfResolving (buildConflictObjects values)])
    ∧ ((c.fetchValueWithResolver session values).2.1.filter Event.isWriteBack
        = ((c.ConflictResolver (some r)).fetchValueWithResolver session values).2.1.filter
            Event.isWriteBack)
    ∧ ((c.fetchValueWithResolver session values).2.2
        = ((c.ConflictResolver (some r)).fetchValueWithResolver session values).2.2)
    ∧ ∀ raw : commandGet, raw.conflictResolverFunc = none → raw.output = none →
        raw.fetchValueWithResolver session values
          = (raw, [], Exec.ret ⟨[], [], some "goriak: Had conflict, but no conflict resolver"⟩) := by
  have hsel : selectResolver c
      = some ({ c with conflictResolverFunc := some ⟨ResolverSource.selfResolving, r⟩ },
          ⟨ResolverSource.selfResolving, r⟩) := by
    simp [selectResolver, hexplicit, hout, hown]
  have hsel2 : selectResolver (c.ConflictResolver (some r))
      = some (c.ConflictResolver (some r), ⟨ResolverSource.explicit, r⟩) := rfl
  rw [fetch_conflict_eq _ _ _ session values hlen hsel,
    fetch_conflict_eq _ _ _ session values hlen hsel2]
  refine ⟨?_, ?_, ?_, ?_⟩
  · split <;> simp [Event.isResolverCall]
  · split <;> simp [Event.isWriteBack, commandGet.ConflictResolver]
  · split <;> simp
  · intro raw h1 h2
    have hnone : selectResolver raw = none := by simp [selectResolver, h1, h2]
    exact fetch_conflict_none raw session values hlen hnone

/-- Witness of C17: the output value picks the first sibling itself. -/
theorem fetchValueWithResolver_self_resolving_witness :
    (selfResolvingGet.fetchValueWithResolver okSession twoSiblings).2.2
      = ((selfResolvingGet.ConflictResolver (some pickFirst)).fetchValueWithResolver okSession
          twoSiblings).2.2 :=
  (fetchValueWithResolver_self_resolving selfResolvingGet okSession twoSiblings
    ⟨GoValue.str "", some pickFirst⟩ pickFirst (by decide) rfl rfl rfl).2.2.1

/-- C18: for a raw-mode read with a byte slot whose fetch resolves to bytes
`b`, `Run` returns the successful `Result`, stores exactly `b` in the byte
slot and leaves the structured output value as it was; the outcome is the same
for every behaviour of the JSON library, so no decode takes part and no decode
error can arise. -/
theorem Run_raw (c c1 : commandGet) (libs : Libs) (session : Session) (req : FetchRequest)
    (fc : FetchValueCommand) (evs : List Event) (b vclock old : Bytes)
    (hraw : c.isRawOutput = true) (hslot : c.outputBytes = some old)
    (hb : c.builder = Except.ok req) (hx : session.execute req = Except.ok fc)
    (hs : fc.Success = true) (hnf : fc.Response.IsNotFound = false)
    (hf : c.fetchValueWithResolver session fc.Response.Values
      = (c1, evs, Exec.ret ⟨b, vclock, none⟩)) :
    c.Run libs session
      = ({ c1 with outputBytes := some b }, Event.build :: Event.fetch req :: evs,
          Exec.ret ⟨some { NotFound := false, Key := c.key, VClock := vclock }, none⟩)
    ∧ (c.Run libs session).1.outputBytes = some b
    ∧ (c.Run libs session).1.output = c.output
    ∧ ∀ libs2 : Libs, c.Run libs2 session = c.Run libs session := by
  have hfr := fetch_frame c session fc.Response.Values
  rw [hf] at hfr
  obtain ⟨_, _, hout, _, _⟩ := hfr
  simp only at hout
  have hrun : ∀ l : Libs, c.Run l session
      = ({ c1 with outputBytes := some b }, Event.build :: Event.fetch req :: evs,
          Exec.ret ⟨some { NotFound := false, Key := c.key, VClock := vclock }, none⟩) := by
    intro l
    rw [Run_of_fetched c l session req fc hb hx,
      runFetched_resolved c c1 l session fc evs b vclock hs hnf hf]
    simp [hraw, hslot]
  refine ⟨hrun libs, ?_, ?_, ?_⟩
  · rw [hrun libs]
  · rw [hrun libs]
    exact hout
  · intro libs2
    rw [hrun libs2, hrun libs]

/-- Witness of C18: a raw read of the single value `"A"`. -/
theorem Run_raw_witness :
    rawGet.Run sampleLibs singleValueSession
      = ({ rawGet with outputBytes := some [65] },
          Event.build :: Event.fetch ⟨"users", "default", "u1"⟩ :: [],
          Exec.ret ⟨some { NotFound := false, Key := "u1", VClock := [116, 49] }, none⟩) :=
  (Run_raw rawGet rawGet sampleLibs singleValueSession ⟨"users", "default", "u1"⟩
    ⟨true, ⟨false, [{ Value := [65], LastModified := 1, VClock := [116, 49] }]⟩⟩ []
    [65] [116, 49] [] rfl rfl rfl rfl rfl rfl rfl).1

theorem runFetched_shape (c : commandGet) (libs : Libs) (session : Session)
    (fc : FetchValueCommand) (r : RunReturn)
    (hr : (c.runFetched libs session fc).2.2 = Exec.ret r) :
    (r = ⟨some { NotFound := true }, some "Not found"⟩
        ∧ fc.Success = true ∧ fc.Response.IsNotFound = true)
    ∨ (r.result = none ∧ r.err ≠ none)
    ∨ (∃ c1 evs value vclock, fc.Success = true ∧ fc.Response.IsNotFound = false
        ∧ c.fetchValueWithResolver session fc.Response.Values
            = (c1, evs, Exec.ret ⟨value, vclock, none⟩)
        ∧ r = ⟨some { NotFound := false, Key := c.key, VClock := vclock }, none⟩) := by
  by_cases hs : fc.Success = true
  · by_cases hnf : fc.Response.IsNotFound = true
    · rw [runFetched_not_found c libs session fc hs hnf] at hr
      simp only [Exec.ret.injEq] at hr
      exact Or.inl ⟨hr.symm, hs, hnf⟩
    · have hnf2 : fc.Response.IsNotFound = false := by simpa using hnf
      cases hf : c.fetchValueWithResolver session fc.Response.Values with
      | mk c1 rest =>
        obtain ⟨evs, res⟩ := rest
        cases res with
        | fault reason =>
          rw [runFetched_fault c c1 libs session fc evs reason hs hnf2 hf] at hr
          simp at hr
        | ret fr =>
          obtain ⟨value, vclock, err⟩ := fr
          cases err with
          | some e =>
            rw [runFetched_error c c1 libs session fc evs value vclock e hs hnf2 hf] at hr
            simp only [Exec.ret.injEq] at hr
            subst hr
            exact Or.inr (Or.inl ⟨rfl, by simp⟩)
          | none =>
            rw [runFetched_resolved c c1 libs session fc evs value vclock hs hnf2 hf] at hr
            by_cases hraw : c.isRawOutput = true
            · simp only [hraw, if_true] at hr
              cases hbytes : c.outputBytes with
              | none => simp [hbytes] at hr
              | some old =>
                simp only [hbytes, Exec.ret.injEq] at hr
                exact Or.inr (Or.inr ⟨c1, evs, value, vclock, hs, hnf2, rfl, hr.symm⟩)
            · have hraw2 : c.isRawOutput = false := by simpa using hraw
              simp only [hraw2, Bool.false_eq_true, if_false] at hr
              cases hout : c.output with
              | none =>
                simp only [hout, Exec.ret.injEq] at hr
                subst hr
                exact Or.inr (Or.inl ⟨rfl, by simp⟩)
              | some o =>
                simp only [hout] at hr
                cases hdec : libs.jsonUnmarshal value o.slot with
                | mk slot derr =>
                  cases derr with
                  | some e =>
                    simp only [hdec, Exec.ret.injEq] at hr
                    subst hr
                    exact Or.inr (Or.inl ⟨rfl, by simp⟩)
                  | none =>
                    simp only [hdec, Exec.ret.injEq] at hr
                    exact Or.inr (Or.inr ⟨c1, evs, value, vclock, hs, hnf2, rfl, hr.symm⟩)
  · have hs2 : fc.Success = false := by simpa using hs
    rw [runFetched_unsuccessful c libs session fc hs2] at hr
    simp only [Exec.ret.injEq] at hr
    subst hr
    exact Or.inr (Or.inl ⟨rfl, by simp⟩)

/-- C15: `Run` returns the `NotFound` result whenever the fetch succeeded and
the response is flagged not-found; and for every return of `Run`: a `Result`
with `NotFound` set occurs only in that case; a return with an error has a nil
`Result` unless it is that not-found return; and a return without error
carries a `Result` with `NotFound` false, the command's key and the `VClock`
that `fetchValueWithResolver` returned. -/
theorem Run_result_shape (c : commandGet) (libs : Libs) (session : Session) :
    (∀ req fc, c.builder = Except.ok req → session.execute req = Except.ok fc →
        fc.Success = true → fc.Response.IsNotFound = true →
        (c.Run libs session).2.2 = Exec.ret ⟨some { NotFound := true }, some "Not found"⟩)
    ∧ ∀ r, (c.Run libs session).2.2 = Exec.ret r →
        ((∃ res, r.result = some res ∧ res.NotFound = true) →
            ∃ req fc, c.builder = Except.ok req ∧ session.execute req = Except.ok fc
              ∧ fc.Success = true ∧ fc.Response.IsNotFound = true)
        ∧ (r.err ≠ none →
            r.result = none ∨ r = ⟨some { NotFound := true }, some "Not found"⟩)
        ∧ (r.err = none →
            ∃ req fc c1 evs value vclock,
              c.builder = Except.ok req ∧ session.execute req = Except.ok fc
                ∧ fc.Success = true ∧ fc.Response.IsNotFound = false
                ∧ c.fetchValueWithResolver session fc.Response.Values
                    = (c1, evs, Exec.ret ⟨value, vclock, none⟩)
                ∧ r.result = some { NotFound := false, Key := c.key, VClock := vclock }) := by
  constructor
  · intro req fc hb hx hs hnf
    rw [Run_of_fetched c libs session req fc hb hx,
      runFetched_not_found c libs session fc hs hnf]
  · intro r hr
    cases hb : c.builder with
    | error e =>
      rw [Run_of_build_error c libs session e hb] at hr
      simp only [Exec.ret.injEq] at hr
      subst hr
      simp
    | ok req =>
      cases hx : session.execute req with
      | error e =>
        rw [Run_of_execute_error c libs session req e hb hx] at hr
        simp only [Exec.ret.injEq] at hr
        subst hr
        simp
      | ok fc =>
        rw [Run_of_fetched c libs session req fc hb hx] at hr
        rcases runFetched_shape c libs session fc r hr with h | h | h
        · obtain ⟨hrr, hs, hnf⟩ := h
          subst hrr
          refine ⟨fun _ => ⟨req, fc, rfl, hx, hs, hnf⟩, fun _ => Or.inr rfl, ?_⟩
          intro hnone
          simp at hnone
        · obtain ⟨hres, herr⟩ := h
          refine ⟨?_, fun _ => Or.inl hres, fun hnone => absurd hnone herr⟩
          rintro ⟨res, hsome, _⟩
          rw [hres] at hsome
          simp at hsome
        · obtain ⟨c1, evs, value, vclock, hs, hnf, hf, hrr⟩ := h
          subst hrr
          refine ⟨?_, ?_, fun _ => ⟨req, fc, c1, evs, value, vclock, rfl, hx, hs, hnf, hf, rfl⟩⟩
          · rintro ⟨res, hsome, hflag⟩
            simp only [Option.some.injEq] at hsome
            subst hsome
            simp at hflag
          · intro herr
            simp at herr

/-- Witness of C15: the not-found return, and the successful read of a single
value. -/
theorem Run_result_shape_witness :
    (plainGet.Run sampleLibs okSession).2.2
      = Exec.ret ⟨some { NotFound := true }, some "Not found"⟩
    ∧ ∃ req fc c1 evs value vclock,
        plainGet.builder = Except.ok req ∧ singleValueSession.execute req = Except.ok fc
          ∧ fc.Success = true ∧ fc.Response.IsNotFound = false
          ∧ plainGet.fetchValueWithResolver singleValueSession fc.Response.Values
              = (c1, evs, Exec.ret ⟨value, vclock, none⟩)
          ∧ (some { NotFound := false, Key := "u1", VClock := [116, 49] } : Option Result)
              = some { NotFound := false, Key := plainGet.key, VClock := vclock } :=
  ⟨(Run_result_shape plainGet sampleLibs okSession).1 ⟨"users", "default", "u1"⟩
      ⟨true, ⟨true, []⟩⟩ rfl rfl rfl rfl,
    ((Run_result_shape plainGet sampleLibs singleValueSession).2
      ⟨some { NotFound := false, Key := "u1", VClock := [116, 49] }, none⟩ (by decide)).2.2 rfl⟩

/-- C16, as stated, fails: decoding `{"A":"x","B":"y"}` into the slot
`struct { A string; B int }` holding `("old", 7)` makes `Run` return the
decode error while the slot holds `("x", 7)`: `json.Unmarshal` wrote `A` into
the caller's value before it reported the mismatch on `B`. -/
theorem Run_decode_failure_changes_slot :
    (recordGet.Run mismatchLibs mismatchSession).2.2
      = Exec.ret ⟨none, some "json: cannot unmarshal string into Go struct field .B of type int"⟩
    ∧ recordGet.outputSlot = some recordSlot
    ∧ (recordGet.Run mismatchLibs mismatchSession).1.outputSlot = some recordSlotHalfDecoded
    ∧ recordSlotHalfDecoded ≠ recordSlot := by
  refine ⟨by decide, rfl, rfl, ?_⟩
  simp [recordSlotHalfDecoded, recordSlot]

/-- C16, amended: for a structured read whose chosen bytes fail to decode,
`Run` returns the decode error with a nil `Result`, and the output slot holds
what `json.Unmarshal` left in it. -/
theorem Run_decode_failure (c c1 : commandGet) (libs : Libs) (session : Session)
    (req : FetchRequest) (fc : FetchValueCommand) (evs : List Event) (value vclock : Bytes)
    (o : OutputValue) (slot : GoValue) (e : GoError)
    (hraw : c.isRawOutput = false) (hout : c.output = some o)
    (hb : c.builder = Except.ok req) (hx : session.execute req = Except.ok fc)
    (hs : fc.Success = true) (hnf : fc.Response.IsNotFound = false)
    (hf : c.fetchValueWithResolver session fc.Response.Values
      = (c1, evs, Exec.ret ⟨value, vclock, none⟩))
    (hdec : libs.jsonUnmarshal value o.slot = (slot, some e)) :
    (c.Run libs session).2.2 = Exec.ret ⟨none, some e⟩
    ∧ (c.Run libs session).1.outputSlot = some slot := by
  rw [Run_of_fetched c libs session req fc hb hx,
    runFetched_resolved c c1 libs session fc evs value vclock hs hnf hf]
  simp [hraw, hout, hdec, commandGet.outputSlot]

/-- Witness of C16: the mismatching read above. -/
theorem Run_decode_failure_witness :
    (recordGet.Run mismatchLibs mismatchSession).2.2
      = Exec.ret ⟨none, some "json: cannot unmarshal string into Go struct field .B of type int"⟩
    ∧ (recordGet.Run mismatchLibs mismatchSession).1.outputSlot = some recordSlotHalfDecoded :=
  Run_decode_failure recordGet recordGet mismatchLibs mismatchSession ⟨"users", "default", "u1"⟩
    ⟨true, ⟨false, [{ Value := mismatchedJSON, LastModified := 1, VClock := [116, 49] }]⟩⟩ []
    mismatchedJSON [116, 49] ⟨recordSlot, none⟩ recordSlotHalfDecoded
    "json: cannot unmarshal string into Go struct field .B of type int"
    rfl rfl rfl rfl rfl rfl rfl rfl

end Goriak
